import Mathlib

set_option maxHeartbeats 1000000
set_option linter.unusedSectionVars false

/-!
Shallow embedding of the match-3 board engine (`src/oo/src/init.ts`, class
`Board`, plus the functional `piece` of the unnamed functional source file).
Piece values are an arbitrary type `T` with decidable equality; a cell holds
`Option T` (`none` models the TypeScript `undefined`).  The mutable generator
object is modelled as a pure stream `gen : Nat → T` together with a call
counter `genIdx` carried in the state, so `generator.next()` becomes
`gen genIdx` followed by `genIdx + 1`.  Listener callbacks are modelled as
opaque tokens; `alert` records one delivery per registered token, and also
records the emitted event itself in an event trace.  The mutually recursive
`while (this.findMatches()) this.doMatch()` loops of the constructor, `move`
and `refillBoard` are realised as the fuel-indexed `resolveLoop`; `none`
means the fuel was exhausted before the loop reached its exit condition.
-/

namespace Match3

structure Position where
  row : Int
  col : Int
deriving DecidableEq

abbrev Grid (T : Type) := List (List (Option T))

/-- Board dimensions and the generator stream (the immutable parts of `Board`). -/
structure Cfg (T : Type) where
  width : Nat
  height : Nat
  gen : Nat → T

/-- A recorded match.  The source type `Match<T>` stores a `positions` array
that every construction site fills with exactly three positions, so the
embedding stores the three positions as fields. -/
structure MatchR (T : Type) where
  matched : Option T
  p1 : Position
  p2 : Position
  p3 : Position
deriving DecidableEq

inductive BEvent (T : Type) where
  | matchEv : MatchR T → BEvent T
  | refill : BEvent T
deriving DecidableEq

/-- The mutable parts of `Board`: the grid, the pending `matches` list, the
listener tokens, the trace of emitted events and of deliveries to listeners,
and the generator call counter. -/
structure BState (T : Type) where
  data : Grid T
  matchList : List (MatchR T)
  events : List (BEvent T)
  listeners : List Nat
  deliveries : List (Nat × BEvent T)
  genIdx : Nat
deriving DecidableEq

variable {T : Type} [DecidableEq T]

/-- Raw double-indexing `board[r][c]`; out-of-range reads default to `none`. -/
def cell (d : Grid T) (r c : Nat) : Option T := (d.getD r []).getD c none

/-- Raw double-indexed write `board[r][c] = v`; out-of-range writes are
dropped (a JavaScript out-of-range array write is invisible to the bounds
checked reads the engine performs). -/
def setCell (d : Grid T) (r c : Nat) (v : Option T) : Grid T :=
  d.set r ((d.getD r []).set c v)

/-- Source `Board.piece`: bounds check, then `this.board[p.row][p.col]`. -/
def piece (cfg : Cfg T) (d : Grid T) (p : Position) : Option T :=
  if p.row < 0 ∨ p.col < 0 ∨ (cfg.height : Int) ≤ p.row ∨ (cfg.width : Int) ≤ p.col then none
  else cell d p.row.toNat p.col.toNat

/-- Source `piece` of the functional file (positively phrased bounds check). -/
def pieceFp (cfg : Cfg T) (d : Grid T) (p : Position) : Option T :=
  if 0 ≤ p.row ∧ p.row < (cfg.height : Int) ∧ 0 ≤ p.col ∧ p.col < (cfg.width : Int) then
    cell d p.row.toNat p.col.toNat
  else none

/-- Write at a `Position` with `Int` coordinates; negative coordinates are
dropped (invisible to the engine's bounds-checked reads). -/
def setCellP (d : Grid T) (p : Position) (v : Option T) : Grid T :=
  if p.row < 0 ∨ p.col < 0 then d else setCell d p.row.toNat p.col.toNat v

/-- Source `Board.change`: read both pieces, then write them back swapped. -/
def change (cfg : Cfg T) (d : Grid T) (first second : Position) : Grid T :=
  let firstPiece := piece cfg d first
  let secondPiece := piece cfg d second
  setCellP (setCellP d first secondPiece) second firstPiece

def changeS (cfg : Cfg T) (s : BState T) (first second : Position) : BState T :=
  { s with data := change cfg s.data first second }

/-- Source `Board.evaluateColumnMatch`: for `i` from `col - 2` to `col + 2`,
if the window of three cells at columns `i, i+1, i+2` of the target's row is
fully in bounds and all three equal to the target piece, return true. -/
def evaluateColumnMatch (cfg : Cfg T) (d : Grid T) (position : Position) (targetPiece : T) :
    Bool :=
  let column := position.col
  let row := position.row
  (List.range 5).any fun k =>
    let i : Int := column - 2 + (k : Int)
    decide (0 ≤ i) && decide (i + 2 < (cfg.width : Int)) &&
      (decide (piece cfg d ⟨row, i⟩ = some targetPiece) &&
       decide (piece cfg d ⟨row, i + 1⟩ = some targetPiece) &&
       decide (piece cfg d ⟨row, i + 2⟩ = some targetPiece))

/-- Source `Board.evaluateRowMatch`: same scan along the target's column. -/
def evaluateRowMatch (cfg : Cfg T) (d : Grid T) (position : Position) (targetPiece : T) :
    Bool :=
  let column := position.col
  let row := position.row
  (List.range 5).any fun k =>
    let i : Int := row - 2 + (k : Int)
    decide (0 ≤ i) && decide (i + 2 < (cfg.height : Int)) &&
      (decide (piece cfg d ⟨i, column⟩ = some targetPiece) &&
       decide (piece cfg d ⟨i + 1, column⟩ = some targetPiece) &&
       decide (piece cfg d ⟨i + 2, column⟩ = some targetPiece))

/-- Source `Board.canMove`.  The source mutates the grid (speculative swap)
and swaps back before returning, so the embedding returns the boolean
together with the state as it is on return. -/
def canMove (cfg : Cfg T) (s : BState T) (positionA positionB : Position) :
    Bool × BState T :=
  match piece cfg s.data positionA, piece cfg s.data positionB with
  | some pieceA, some pieceB =>
    if pieceA = pieceB then (false, s)
    else if positionA.col = positionB.col ∨ positionA.row = positionB.row then
      let s1 := changeS cfg s positionA positionB
      let isColumnMatch1 := evaluateColumnMatch cfg s1.data positionA pieceB
      let isColumnMatch2 := evaluateColumnMatch cfg s1.data positionB pieceA
      let isColumnMatch3 := evaluateRowMatch cfg s1.data positionA pieceB
      let isColumnMatch4 := evaluateRowMatch cfg s1.data positionB pieceA
      if isColumnMatch1 || isColumnMatch2 || isColumnMatch3 || isColumnMatch4 then
        (true, changeS cfg s1 positionA positionB)
      else (false, changeS cfg s1 positionA positionB)
    else (false, s)
  | _, _ => (false, s)

def canMoveB (cfg : Cfg T) (s : BState T) (a b : Position) : Bool := (canMove cfg s a b).1

/-- Source `Board.alert`: synchronously deliver the event to every listener;
the embedding also appends the event itself to the emission trace. -/
def alert (s : BState T) (event : BEvent T) : BState T :=
  { s with events := s.events ++ [event],
           deliveries := s.deliveries ++ s.listeners.map fun l => (l, event) }

/-- Source `Board.findColumnMatch` (a horizontal window of three cells in one
row): on success it alerts a `Match` event, pushes the match, returns true. -/
def findColumnMatch (cfg : Cfg T) (s : BState T) (row col : Nat) : Bool × BState T :=
  let position1 : Position := ⟨(row : Int), (col : Int)⟩
  let position2 : Position := ⟨(row : Int), ((col + 1 : Nat) : Int)⟩
  let position3 : Position := ⟨(row : Int), ((col + 2 : Nat) : Int)⟩
  let piece1 := piece cfg s.data position1
  let piece2 := piece cfg s.data position2
  let piece3 := piece cfg s.data position3
  if piece1 = piece2 ∧ piece2 = piece3 ∧ piece1 = piece3 then
    let m : MatchR T := ⟨piece1, position1, position2, position3⟩
    let s1 := alert s (BEvent.matchEv m)
    (true, { s1 with matchList := s1.matchList ++ [m] })
  else (false, s)

/-- Source `Board.findRowMatch` (a vertical window of three cells in one
column). -/
def findRowMatch (cfg : Cfg T) (s : BState T) (row col : Nat) : Bool × BState T :=
  let position1 : Position := ⟨(row : Int), (col : Int)⟩
  let position2 : Position := ⟨((row + 1 : Nat) : Int), (col : Int)⟩
  let position3 : Position := ⟨((row + 2 : Nat) : Int), (col : Int)⟩
  let piece1 := piece cfg s.data position1
  let piece2 := piece cfg s.data position2
  let piece3 := piece cfg s.data position3
  if piece1 = piece2 ∧ piece2 = piece3 ∧ piece1 = piece3 then
    let m : MatchR T := ⟨piece1, position1, position2, position3⟩
    let s1 := alert s (BEvent.matchEv m)
    (true, { s1 with matchList := s1.matchList ++ [m] })
  else (false, s)

/-- The combined effect on the state of one successful `findColumnMatch` or
`findRowMatch` call: one match recorded, one `Match` event emitted, one
delivery per registered listener. -/
def pushMatch (s : BState T) (m : MatchR T) : BState T :=
  { s with matchList := s.matchList ++ [m],
           events := s.events ++ [BEvent.matchEv m],
           deliveries := s.deliveries ++ s.listeners.map fun l => (l, BEvent.matchEv m) }

/-- One orientation of the scan loop in `Board.findMatches`: iterate over the
window positions in order; once the orientation's flag is true the body is
skipped (`if (!columnMatch)` in the source). -/
def scanPairs (check : BState T → Nat → Nat → Bool × BState T)
    (pairs : List (Nat × Nat)) (s : BState T) : Bool × BState T :=
  pairs.foldl (fun acc rc => if acc.1 then acc else check acc.2 rc.1 rc.2) (false, s)

/-- Window positions of the first loop of `findMatches`:
`row < height`, `col < width - 2`, row-major. -/
def hPairs (cfg : Cfg T) : List (Nat × Nat) :=
  (List.range cfg.height).flatMap fun row =>
    (List.range (cfg.width - 2)).map fun col => (row, col)

/-- Window positions of the second loop of `findMatches`:
`row < height - 2`, `col < width`, row-major. -/
def vPairs (cfg : Cfg T) : List (Nat × Nat) :=
  (List.range (cfg.height - 2)).flatMap fun row =>
    (List.range cfg.width).map fun col => (row, col)

/-- Source `Board.findMatches`: both orientation scans (each with its own
early-exit flag), returning `columnMatch || rowMatch`. -/
def findMatches (cfg : Cfg T) (s : BState T) : Bool × BState T :=
  let h := scanPairs (findColumnMatch cfg) (hPairs cfg) s
  let v := scanPairs (findRowMatch cfg) (vPairs cfg) h.2
  (h.1 || v.1, v.2)

/-- Clearing of one recorded match inside `Board.doMatch`. -/
def clearMatch (d : Grid T) (m : MatchR T) : Grid T :=
  setCellP (setCellP (setCellP d m.p1 none) m.p2 none) m.p3 none

/-- The first half of `Board.doMatch`: clear every recorded match's three
positions, then empty the `matches` list. -/
def clearMatches (s : BState T) : BState T :=
  { s with data := s.matchList.foldl clearMatch s.data, matchList := [] }

/-- The `while (rowAbove >= 0 && board[rowAbove][col] === undefined) rowAbove--`
search of `refillBoard`, on one extracted column; the argument is the row the
search starts strictly above. -/
def findAboveIdx (col : List (Option T)) : Nat → Option Nat
  | 0 => none
  | r + 1 => if (col.getD r none).isSome then some r else findAboveIdx col r

/-- The body of the row loop of `refillBoard` for one row of one column:
an empty cell pulls the nearest piece above it down (leaving `none` behind),
or takes a fresh generator value when no piece exists above. -/
def processRow (g : Nat → T) (st : List (Option T) × Nat) (row : Nat) :
    List (Option T) × Nat :=
  if st.1.getD row none = none then
    match findAboveIdx st.1 row with
    | some rowAbove => ((st.1.set row (st.1.getD rowAbove none)).set rowAbove none, st.2)
    | none => (st.1.set row (some (g st.2)), st.2 + 1)
  else st

/-- The row loop of `refillBoard` for one column: rows `height - 1` down to
`0`. -/
def processColumn (g : Nat → T) (height : Nat) (col : List (Option T)) (idx : Nat) :
    List (Option T) × Nat :=
  ((List.range height).reverse).foldl (processRow g) (col, idx)

def columnOf (d : Grid T) (c : Nat) : List (Option T) := d.map fun rowL => rowL.getD c none

/-- Write a column back into the grid (the `newColumn` copy-back of
`refillBoard`); a missing entry writes `none`, matching the JavaScript
`undefined` read past the end of `newColumn`. -/
def setColumn (c : Nat) : Grid T → List (Option T) → Grid T
  | [], _ => []
  | rowL :: rest, [] => rowL.set c none :: setColumn c rest []
  | rowL :: rest, v :: vs => rowL.set c v :: setColumn c rest vs

/-- One iteration of the column loop of `refillBoard`.  The row loop of the
source reads and writes only cells of column `col`, so it is embedded as
`processColumn` on the extracted column, written back afterwards (the source
itself rebuilds the column via `newColumn`). -/
def colStep (cfg : Cfg T) (st : Grid T × Nat) (c : Nat) : Grid T × Nat :=
  let pc := processColumn cfg.gen cfg.height (columnOf st.1 c) st.2
  (setColumn c st.1 pc.1, pc.2)

/-- The gravity phase of `Board.refillBoard` (everything before its trailing
`while (this.findMatches()) this.doMatch()` loop). -/
def refillBoardGravity (cfg : Cfg T) (st : Grid T × Nat) : Grid T × Nat :=
  (List.range cfg.width).foldl (colStep cfg) st

def gravity (cfg : Cfg T) (s : BState T) : BState T :=
  let r := refillBoardGravity cfg (s.data, s.genIdx)
  { s with data := r.1, genIdx := r.2 }

/-- `Board.doMatch` up to and including the gravity phase of `refillBoard`:
clear matches, alert `Refill`, apply gravity.  The trailing scan loop of
`refillBoard` is realised by `resolveLoop`. -/
def doMatchRefill (cfg : Cfg T) (s : BState T) : BState T :=
  gravity cfg (alert (clearMatches s) BEvent.refill)

/-- The `while (this.findMatches()) this.doMatch()` loop shared by the
constructor, `move` and `refillBoard`, with fuel.  When a match is found, the
body runs `doMatchRefill` followed by the nested loop of `refillBoard` (first
recursive call) and then re-tests the outer loop condition (second recursive
call). -/
def resolveLoop (cfg : Cfg T) : Nat → BState T → Option (BState T)
  | 0, _ => none
  | fuel + 1, s =>
    let p := findMatches cfg s
    if p.1 then
      match resolveLoop cfg fuel (doMatchRefill cfg p.2) with
      | none => none
      | some s2 => resolveLoop cfg fuel s2
    else some p.2

/-- The row-major initial fill of the constructor. -/
def initData (cfg : Cfg T) : Grid T :=
  (List.range cfg.height).map fun row =>
    (List.range cfg.width).map fun col => some (cfg.gen (row * cfg.width + col))

/-- Board state right after the constructor's fill loops: empty matches,
no listeners, nothing emitted, `height * width` generator calls made. -/
def initState (cfg : Cfg T) : BState T :=
  ⟨initData cfg, [], [], [], [], cfg.height * cfg.width⟩

/-- Source `Board.constructor`: fill, then resolve to a fixed point. -/
def construct (cfg : Cfg T) (fuel : Nat) : Option (BState T) :=
  resolveLoop cfg fuel (initState cfg)

/-- Source `Board.move`: if `canMove`, swap and resolve; otherwise return
with the state `canMove` left behind. -/
def move (cfg : Cfg T) (fuel : Nat) (s : BState T) (first second : Position) :
    Option (BState T) :=
  let r := canMove cfg s first second
  if r.1 then resolveLoop cfg fuel (changeS cfg r.2 first second) else some r.2

/-- Source `Board.addListener`. -/
def addListener (s : BState T) (l : Nat) : BState T :=
  { s with listeners := s.listeners ++ [l] }

/-- Source `Board.positions`: all positions in row-major order. -/
def positionsList (cfg : Cfg T) : List Position :=
  (List.range cfg.height).flatMap fun row =>
    (List.range cfg.width).map fun col => ⟨(row : Int), (col : Int)⟩

/-! Specification-side predicates used to state the claims. -/

/-- Well-formed grid: `height` rows of `width` cells each. -/
def WF (cfg : Cfg T) (d : Grid T) : Prop :=
  d.length = cfg.height ∧ ∀ rowL ∈ d, rowL.length = cfg.width

def InBounds (cfg : Cfg T) (p : Position) : Prop :=
  0 ≤ p.row ∧ p.row < (cfg.height : Int) ∧ 0 ≤ p.col ∧ p.col < (cfg.width : Int)

/-- The position's row and cell physically exist in the stored lists. -/
def PhysIn (d : Grid T) (p : Position) : Prop :=
  p.row.toNat < d.length ∧ p.col.toNat < (d.getD p.row.toNat []).length

/-- A full-board scan (both orientations, every fully in-bounds window of
three consecutive cells) finds no window whose three cells are equal. -/
def Quiescent (cfg : Cfg T) (d : Grid T) : Prop :=
  ∀ r c : Nat,
    (r < cfg.height → c + 2 < cfg.width →
      ¬(piece cfg d ⟨(r : Int), (c : Int)⟩ = piece cfg d ⟨(r : Int), ((c + 1 : Nat) : Int)⟩ ∧
        piece cfg d ⟨(r : Int), ((c + 1 : Nat) : Int)⟩ =
          piece cfg d ⟨(r : Int), ((c + 2 : Nat) : Int)⟩)) ∧
    (r + 2 < cfg.height → c < cfg.width →
      ¬(piece cfg d ⟨(r : Int), (c : Int)⟩ = piece cfg d ⟨((r + 1 : Nat) : Int), (c : Int)⟩ ∧
        piece cfg d ⟨((r + 1 : Nat) : Int), (c : Int)⟩ =
          piece cfg d ⟨((r + 2 : Nat) : Int), (c : Int)⟩))

/-- A fully in-bounds horizontal window starting at column `i` of row `row`,
all three cells equal to `t`. -/
def windowColAllEq (cfg : Cfg T) (d : Grid T) (row i : Int) (t : T) : Prop :=
  0 ≤ i ∧ i + 2 < (cfg.width : Int) ∧
    piece cfg d ⟨row, i⟩ = some t ∧ piece cfg d ⟨row, i + 1⟩ = some t ∧
    piece cfg d ⟨row, i + 2⟩ = some t

/-- A fully in-bounds vertical window starting at row `i` of column `col`,
all three cells equal to `t`. -/
def windowRowAllEq (cfg : Cfg T) (d : Grid T) (col i : Int) (t : T) : Prop :=
  0 ≤ i ∧ i + 2 < (cfg.height : Int) ∧
    piece cfg d ⟨i, col⟩ = some t ∧ piece cfg d ⟨i + 1, col⟩ = some t ∧
    piece cfg d ⟨i + 2, col⟩ = some t

/-- Modelled from the words of claim C3: the directional check restricted to
the windows that contain the target position, i.e. those starting at
`pos - 2`, `pos - 1` and `pos` (here for the row direction of
`evaluateColumnMatch`). -/
def containingColCheck (cfg : Cfg T) (d : Grid T) (p : Position) (t : T) : Bool :=
  (List.range 3).any fun k =>
    let i : Int := p.col - 2 + (k : Int)
    decide (0 ≤ i) && decide (i + 2 < (cfg.width : Int)) &&
      (decide (piece cfg d ⟨p.row, i⟩ = some t) &&
       decide (piece cfg d ⟨p.row, i + 1⟩ = some t) &&
       decide (piece cfg d ⟨p.row, i + 2⟩ = some t))

/-- The generator values a refilled column receives above its surviving
pieces: reading top to bottom, the `k` fresh cells hold
`g (idx + k - 1), …, g idx` (the bottom-most fresh cell was generated
first). -/
def genDesc (g : Nat → T) (idx k : Nat) : List (Option T) :=
  (List.range k).map fun j => some (g (idx + k - 1 - j))

def survivors (col : List (Option T)) : List (Option T) := col.filter fun x => x.isSome

/-- Number of empty cells of column `c` (the cells gravity must source from
the generator). -/
def missingIn (cfg : Cfg T) (d : Grid T) (c : Nat) : Nat :=
  cfg.height - (survivors (columnOf d c)).length

/-- Generator counter value when gravity reaches column `c`. -/
def genBase (cfg : Cfg T) (d : Grid T) (i0 c : Nat) : Nat :=
  i0 + ((List.range c).map (missingIn cfg d)).sum

/-! Concrete instances used by witnesses and counterexamples. -/

/-- A 3-wide, 1-high board with pairwise distinct pieces. -/
def cfg0 : Cfg Nat := ⟨3, 1, fun i => i⟩

/-- A 1-row, 3-column board whose generator always yields `0`. -/
def cfgK : Cfg Nat := ⟨3, 1, fun _ => 0⟩

def zK : Grid Nat := initData cfgK

/-- Representative state of every pass of the diverging construction on
`cfgK`: all-zero grid, no pending matches. -/
def sK : BState Nat := ⟨zK, [], [], [], [], 3⟩

/-- State of the diverging construction on `cfgK` after one full pass. -/
def sK1 : BState Nat :=
  ⟨[[some 0, some 0, some 0]], [],
    [BEvent.matchEv ⟨some 0, ⟨0, 0⟩, ⟨0, 1⟩, ⟨0, 2⟩⟩, BEvent.refill], [], [], 6⟩

/-- Construction with the constant generator on the 3-by-3 board reaches no
fixed point within any amount of fuel. -/
def ConstructDivergesConst : Prop := ∀ fuel : Nat, construct cfgK fuel = none

def cfg3 : Cfg Nat := ⟨6, 1, fun _ => 0⟩

def d3 : Grid Nat := [[some 1, some 0, some 0, some 0, some 1, some 1]]

def cfg8 : Cfg Nat := ⟨1, 3, fun i => i⟩

def s8 : BState Nat := ⟨[[none], [some 7], [none]], [], [], [], [], 0⟩

def cfg9 : Cfg Nat := ⟨2, 2, fun i => i⟩

def d9 : Grid Nat := [[some 3, some 4], [some 5, some 6]]

/-! Index arithmetic on lists and grids. -/

theorem getD_set_self {l : List α} {i : Nat} (x : α) (dd : α) (h : i < l.length) :
    (l.set i x).getD i dd = x := by
  rw [List.getD_eq_getElem _ _ (by simpa using h)]
  exact List.getElem_set_self _

theorem getD_set_ne {l : List α} {i j : Nat} (x : α) (dd : α) (h : i ≠ j) :
    (l.set i x).getD j dd = l.getD j dd := by
  by_cases hj : j < l.length
  · rw [List.getD_eq_getElem _ _ (by simpa using hj), List.getD_eq_getElem _ _ hj]
    exact List.getElem_set_ne h _
  · rw [List.getD_eq_default _ _ (by simpa using Nat.le_of_not_lt hj),
      List.getD_eq_default _ _ (Nat.le_of_not_lt hj)]

theorem set_getD_self {l : List α} {i : Nat} (dd : α) (h : i < l.length) :
    l.set i (l.getD i dd) = l := by
  apply List.ext_getElem?
  intro n
  by_cases hn : n = i
  · subst hn
    rw [List.getElem?_set_self (by simpa using h), List.getD_eq_getElem _ _ h,
      List.getElem?_eq_getElem h]
  · exact List.getElem?_set_ne fun hin => hn hin.symm

theorem length_setCell (d : Grid T) (r c : Nat) (v : Option T) :
    (setCell d r c v).length = d.length := by
  simp [setCell]

theorem getD_setCell_row (d : Grid T) (r c : Nat) (v : Option T) (hr : r < d.length) :
    (setCell d r c v).getD r [] = (d.getD r []).set c v := by
  rw [setCell, List.getD_eq_getElem _ _ (by simpa using hr), List.getElem_set_self,
    List.getD_eq_getElem _ _ hr]

theorem setCell_oob (d : Grid T) (r c : Nat) (v : Option T) (hr : d.length ≤ r) :
    setCell d r c v = d := by
  simp only [setCell]
  exact List.set_eq_of_length_le hr

theorem rowLen_setCell (d : Grid T) (r c r' : Nat) (v : Option T) :
    ((setCell d r c v).getD r' []).length = (d.getD r' []).length := by
  by_cases hr : r < d.length
  · by_cases hrr : r' = r
    · subst hrr
      rw [getD_setCell_row d r' c v hr, List.length_set]
    · simp only [setCell]
      rw [getD_set_ne _ _ fun h => hrr h.symm]
  · rw [setCell_oob d r c v (Nat.le_of_not_lt hr)]

theorem cell_setCell_self (d : Grid T) (r c : Nat) (v : Option T)
    (hr : r < d.length) (hc : c < (d.getD r []).length) :
    cell (setCell d r c v) r c = v := by
  simp only [cell]
  rw [getD_setCell_row d r c v hr, getD_set_self _ _ hc]

theorem cell_setCell_ne (d : Grid T) (r c r' c' : Nat) (v : Option T)
    (h : r ≠ r' ∨ c ≠ c') : cell (setCell d r c v) r' c' = cell d r' c' := by
  by_cases hr : r < d.length
  · rcases h with h | h
    · simp only [cell, setCell]
      rw [getD_set_ne _ _ h]
    · by_cases hrr : r' = r
      · subst hrr
        simp only [cell]
        rw [getD_setCell_row d r' c v hr, getD_set_ne _ _ h]
      · simp only [cell, setCell]
        rw [getD_set_ne _ _ fun hh => hrr hh.symm]
  · rw [setCell_oob d r c v (Nat.le_of_not_lt hr)]

theorem setCell_cell_self (d : Grid T) (r c : Nat)
    (hr : r < d.length) (hc : c < (d.getD r []).length) :
    setCell d r c (cell d r c) = d := by
  simp only [setCell, cell]
  rw [set_getD_self _ hc, set_getD_self _ hr]

theorem setCell_setCell_self (d : Grid T) (r c : Nat) (v w : Option T) :
    setCell (setCell d r c v) r c w = setCell d r c w := by
  by_cases hr : r < d.length
  · show (setCell d r c v).set r (((setCell d r c v).getD r []).set c w) = setCell d r c w
    rw [getD_setCell_row d r c v hr, List.set_set]
    simp only [setCell]
    rw [List.set_set]
  · rw [setCell_oob d r c v (Nat.le_of_not_lt hr)]

theorem setCell_comm (d : Grid T) (r c r' c' : Nat) (v w : Option T)
    (h : r ≠ r' ∨ c ≠ c') :
    setCell (setCell d r c v) r' c' w = setCell (setCell d r' c' w) r c v := by
  rcases h with h | h
  · simp only [setCell]
    rw [getD_set_ne _ _ h, getD_set_ne _ _ fun hh => h hh.symm,
      List.set_comm _ _ _ h]
  · by_cases hrr : r = r'
    · subst hrr
      by_cases hr : r < d.length
      · simp only [setCell]
        rw [getD_set_self _ _ (by simpa using hr), getD_set_self _ _ (by simpa using hr),
          List.set_set, List.set_set, List.set_comm _ _ _ h]
      · have h0 : ∀ X : List (Option T), d.set r X = d :=
          fun X => List.set_eq_of_length_le (Nat.le_of_not_lt hr)
        simp only [setCell, h0]
    · simp only [setCell]
      rw [getD_set_ne _ _ hrr, getD_set_ne _ _ fun hh => hrr hh.symm,
        List.set_comm _ _ _ hrr]

/-! Lemmas about `piece` (claim C9 and supporting facts). -/

theorem piece_eq_pieceFp (cfg : Cfg T) (d : Grid T) (p : Position) :
    piece cfg d p = pieceFp cfg d p := by
  simp only [piece, pieceFp]
  by_cases h : p.row < 0 ∨ p.col < 0 ∨ (cfg.height : Int) ≤ p.row ∨ (cfg.width : Int) ≤ p.col
  · rw [if_pos h, if_neg]
    rintro ⟨h1, h2, h3, h4⟩
    rcases h with h | h | h | h <;> omega
  · push_neg at h
    rw [if_neg (by push_neg; exact h), if_pos ⟨by omega, by omega, by omega, by omega⟩]

theorem piece_oob (cfg : Cfg T) (d : Grid T) (p : Position)
    (h : p.row < 0 ∨ p.col < 0 ∨ (cfg.height : Int) ≤ p.row ∨ (cfg.width : Int) ≤ p.col) :
    piece cfg d p = none := by
  simp only [piece]
  rw [if_pos h]

theorem piece_inb (cfg : Cfg T) (d : Grid T) (p : Position) (h : InBounds cfg p) :
    piece cfg d p = cell d p.row.toNat p.col.toNat := by
  obtain ⟨h1, h2, h3, h4⟩ := h
  simp only [piece]
  rw [if_neg]
  push_neg
  exact ⟨by omega, by omega, by omega, by omega⟩

theorem cell_some_bounds (d : Grid T) (r c : Nat) (v : T) (h : cell d r c = some v) :
    r < d.length ∧ c < (d.getD r []).length := by
  by_cases hr : r < d.length
  · refine ⟨hr, ?_⟩
    by_cases hc : c < (d.getD r []).length
    · exact hc
    · rw [cell, List.getD_eq_default _ _ (Nat.le_of_not_lt hc)] at h
      exact absurd h (by simp)
  · rw [cell, List.getD_eq_default _ _ (Nat.le_of_not_lt hr)] at h
    exact absurd h (by simp)

theorem piece_some_inb (cfg : Cfg T) (d : Grid T) (p : Position) (v : T)
    (h : piece cfg d p = some v) : InBounds cfg p := by
  by_cases hb : p.row < 0 ∨ p.col < 0 ∨ (cfg.height : Int) ≤ p.row ∨ (cfg.width : Int) ≤ p.col
  · rw [piece_oob cfg d p hb] at h
    exact absurd h (by simp)
  · push_neg at hb
    exact ⟨by omega, by omega, by omega, by omega⟩

/-- Claim C9: `piece` agrees with the functional implementation, returns
`none` for every out-of-bounds position without touching the grid arrays, and
returns the stored cell for every in-bounds position. -/
theorem c9_piece_bounds (cfg : Cfg T) (d : Grid T) (p : Position) :
    piece cfg d p = pieceFp cfg d p ∧
    ((p.row < 0 ∨ p.col < 0 ∨ (cfg.height : Int) ≤ p.row ∨ (cfg.width : Int) ≤ p.col) →
      piece cfg d p = none) ∧
    (InBounds cfg p → piece cfg d p = cell d p.row.toNat p.col.toNat) :=
  ⟨piece_eq_pieceFp cfg d p, piece_oob cfg d p, piece_inb cfg d p⟩

/-- Witness for C9 at concrete out-of-bounds and in-bounds positions. -/
theorem c9_piece_bounds_witness :
    piece cfg9 d9 ⟨-1, 0⟩ = none ∧ piece cfg9 d9 ⟨1, 1⟩ = cell d9 1 1 :=
  ⟨(c9_piece_bounds cfg9 d9 ⟨-1, 0⟩).2.1 (Or.inl (by decide)),
   (c9_piece_bounds cfg9 d9 ⟨1, 1⟩).2.2 (by constructor <;> decide)⟩

/-! Swap and restore: `change` and `canMove` (claims C5, C6, C7). -/

theorem wf_physIn (cfg : Cfg T) (d : Grid T) (p : Position)
    (hwf : WF cfg d) (hp : InBounds cfg p) : PhysIn d p := by
  obtain ⟨hlen, hrow⟩ := hwf
  obtain ⟨h1, h2, h3, h4⟩ := hp
  have hr : p.row.toNat < d.length := by omega
  refine ⟨hr, ?_⟩
  have hmem : d.getD p.row.toNat [] ∈ d := by
    rw [List.getD_eq_getElem _ _ hr]
    exact List.getElem_mem _
  rw [hrow _ hmem]
  omega

theorem piece_some_phys (cfg : Cfg T) (d : Grid T) (p : Position) (v : T)
    (h : piece cfg d p = some v) : PhysIn d p := by
  have hin := piece_some_inb cfg d p v h
  rw [piece_inb cfg d p hin] at h
  exact cell_some_bounds d _ _ v h

theorem setCellP_nonneg (d : Grid T) (p : Position) (v : Option T)
    (h1 : 0 ≤ p.row) (h2 : 0 ≤ p.col) :
    setCellP d p v = setCell d p.row.toNat p.col.toNat v := by
  simp only [setCellP]
  rw [if_neg]
  rintro (h | h) <;> omega

theorem pos_toNat_ne (cfg : Cfg T) (a b : Position)
    (ha : InBounds cfg a) (hb : InBounds cfg b) (hab : a ≠ b) :
    a.row.toNat ≠ b.row.toNat ∨ a.col.toNat ≠ b.col.toNat := by
  by_contra hcon
  push_neg at hcon
  obtain ⟨hr, hc⟩ := hcon
  apply hab
  obtain ⟨ha1, _, ha3, _⟩ := ha
  obtain ⟨hb1, _, hb3, _⟩ := hb
  have : a.row = b.row := by omega
  have : a.col = b.col := by omega
  cases a; cases b
  simp_all

theorem change_expand (cfg : Cfg T) (d : Grid T) (a b : Position)
    (ha : InBounds cfg a) (hb : InBounds cfg b) :
    change cfg d a b =
      setCell (setCell d a.row.toNat a.col.toNat (cell d b.row.toNat b.col.toNat))
        b.row.toNat b.col.toNat (cell d a.row.toNat a.col.toNat) := by
  simp only [change]
  rw [piece_inb cfg d a ha, piece_inb cfg d b hb,
    setCellP_nonneg d a _ ha.1 ha.2.2.1, setCellP_nonneg _ b _ hb.1 hb.2.2.1]

theorem length_change (cfg : Cfg T) (d : Grid T) (a b : Position) :
    (change cfg d a b).length = d.length := by
  simp only [change, setCellP]
  split <;> split <;> simp [length_setCell]

theorem rowLen_change (cfg : Cfg T) (d : Grid T) (a b : Position) (r : Nat) :
    ((change cfg d a b).getD r []).length = ((d.getD r []) : List (Option T)).length := by
  simp only [change, setCellP]
  split <;> split <;> simp only [rowLen_setCell]

theorem change_change (cfg : Cfg T) (d : Grid T) (a b : Position)
    (ha : InBounds cfg a) (hb : InBounds cfg b)
    (hpa : PhysIn d a) (hpb : PhysIn d b) :
    change cfg (change cfg d a b) a b = d := by
  by_cases hab : a = b
  · subst hab
    have hstep : ∀ d' : Grid T, PhysIn d' a → change cfg d' a a = d' := by
      intro d' hp
      rw [change_expand cfg d' a a ha ha, setCell_setCell_self,
        setCell_cell_self _ _ _ hp.1 hp.2]
    rw [hstep d hpa, hstep d hpa]
  · have hne := pos_toNat_ne cfg a b ha hb hab
    have hne' : b.row.toNat ≠ a.row.toNat ∨ b.col.toNat ≠ a.col.toNat := by
      rcases hne with h | h
      · exact Or.inl fun hh => h hh.symm
      · exact Or.inr fun hh => h hh.symm
    have hlen := length_change cfg d a b
    have hrla := rowLen_change cfg d a b a.row.toNat
    have hrlb := rowLen_change cfg d a b b.row.toNat
    have hpa1 : PhysIn (change cfg d a b) a :=
      ⟨by rw [hlen]; exact hpa.1, by rw [hrla]; exact hpa.2⟩
    have hpb1 : PhysIn (change cfg d a b) b :=
      ⟨by rw [hlen]; exact hpb.1, by rw [hrlb]; exact hpb.2⟩
    have hX : change cfg d a b =
        setCell (setCell d a.row.toNat a.col.toNat (cell d b.row.toNat b.col.toNat))
          b.row.toNat b.col.toNat (cell d a.row.toNat a.col.toNat) :=
      change_expand cfg d a b ha hb
    have hXlen : (setCell d a.row.toNat a.col.toNat
        (cell d b.row.toNat b.col.toNat)).length = d.length := length_setCell _ _ _ _
    have hreadA : cell (change cfg d a b) a.row.toNat a.col.toNat =
        cell d b.row.toNat b.col.toNat := by
      rw [hX, cell_setCell_ne _ _ _ _ _ _ hne', cell_setCell_self _ _ _ _ hpa.1 hpa.2]
    have hb1 : b.row.toNat <
        (setCell d a.row.toNat a.col.toNat (cell d b.row.toNat b.col.toNat)).length := by
      rw [hXlen]; exact hpb.1
    have hb2 : b.col.toNat <
        ((setCell d a.row.toNat a.col.toNat
          (cell d b.row.toNat b.col.toNat)).getD b.row.toNat []).length := by
      rw [rowLen_setCell]; exact hpb.2
    have hreadB : cell (change cfg d a b) b.row.toNat b.col.toNat =
        cell d a.row.toNat a.col.toNat := by
      rw [hX, cell_setCell_self _ _ _ _ hb1 hb2]
    rw [change_expand cfg (change cfg d a b) a b ha hb, hreadA, hreadB, hX,
      setCell_comm _ _ _ _ _ _ _ hne', setCell_setCell_self, setCell_setCell_self,
      setCell_cell_self _ _ _ hpa.1 hpa.2, setCell_cell_self _ _ _ hpb.1 hpb.2]

theorem change_symm (cfg : Cfg T) (d : Grid T) (a b : Position)
    (ha : InBounds cfg a) (hb : InBounds cfg b) :
    change cfg d a b = change cfg d b a := by
  by_cases hab : a = b
  · rw [hab]
  · have hne := pos_toNat_ne cfg a b ha hb hab
    rw [change_expand cfg d a b ha hb, change_expand cfg d b a hb ha,
      setCell_comm _ _ _ _ _ _ _ hne]

theorem canMove_state (cfg : Cfg T) (s : BState T) (a b : Position) :
    (canMove cfg s a b).2 = s := by
  rcases hA : piece cfg s.data a with _ | va <;>
    rcases hB : piece cfg s.data b with _ | vb <;>
      simp only [canMove, hA, hB]
  by_cases hv : va = vb
  · rw [if_pos hv]
  · rw [if_neg hv]
    by_cases hc : a.col = b.col ∨ a.row = b.row
    · rw [if_pos hc]
      have ha := piece_some_inb cfg s.data a va hA
      have hb := piece_some_inb cfg s.data b vb hB
      have hpa := piece_some_phys cfg s.data a va hA
      have hpb := piece_some_phys cfg s.data b vb hB
      have hrestore : change cfg (change cfg s.data a b) a b = s.data :=
        change_change cfg s.data a b ha hb hpa hpb
      split <;> simp only [changeS] <;> rw [hrestore]
    · rw [if_neg hc]

/-- Claim C6: `canMove` never mutates the visible state (for any positions,
in bounds or not), and the speculative double swap it performs is an identity
on any well-formed grid as a standalone property. -/
theorem c6_canMove_frame (cfg : Cfg T) (s : BState T) (a b : Position) :
    (canMove cfg s a b).2 = s ∧
    (WF cfg s.data → InBounds cfg a → InBounds cfg b →
      changeS cfg (changeS cfg s a b) a b = s) := by
  refine ⟨canMove_state cfg s a b, fun hwf ha hb => ?_⟩
  simp only [changeS]
  rw [change_change cfg s.data a b ha hb (wf_physIn cfg s.data a hwf ha)
    (wf_physIn cfg s.data b hwf hb)]

/-- Witness for C6 on a concrete board, pair of in-bounds positions, and
discharged well-formedness hypothesis. -/
theorem c6_canMove_frame_witness :
    (canMove cfg9 ⟨d9, [], [], [], [], 0⟩ ⟨0, 0⟩ ⟨0, 1⟩).2 = ⟨d9, [], [], [], [], 0⟩ ∧
    changeS cfg9 (changeS cfg9 ⟨d9, [], [], [], [], 0⟩ ⟨0, 0⟩ ⟨0, 1⟩) ⟨0, 0⟩ ⟨0, 1⟩ =
      ⟨d9, [], [], [], [], 0⟩ :=
  ⟨(c6_canMove_frame cfg9 ⟨d9, [], [], [], [], 0⟩ ⟨0, 0⟩ ⟨0, 1⟩).1,
   (c6_canMove_frame cfg9 ⟨d9, [], [], [], [], 0⟩ ⟨0, 0⟩ ⟨0, 1⟩).2
     (by constructor <;> decide) (by refine ⟨?_, ?_, ?_, ?_⟩ <;> decide)
     (by refine ⟨?_, ?_, ?_, ?_⟩ <;> decide)⟩

/-- Claim C5: an illegal move is a silent no-op — when `canMove` is false,
`move` returns with the state exactly as it was (same grid, same event and
delivery traces, same generator counter). -/
theorem c5_illegal_move_noop (cfg : Cfg T) (s : BState T) (a b : Position) (fuel : Nat)
    (h : canMoveB cfg s a b = false) : move cfg fuel s a b = some s := by
  have h1 : (canMove cfg s a b).1 = false := h
  simp only [move, h1, Bool.false_eq_true, if_false]
  rw [canMove_state cfg s a b]

/-- Witness for C5 at a concrete illegal pair. -/
theorem c5_illegal_move_noop_witness :
    move cfg0 7 (initState cfg0) ⟨0, 0⟩ ⟨0, 1⟩ = some (initState cfg0) :=
  c5_illegal_move_noop cfg0 (initState cfg0) ⟨0, 0⟩ ⟨0, 1⟩ 7 (by decide)

theorem fst_ite_bool (e : Bool) (x y : BState T) :
    (if e = true then ((true : Bool), x) else ((false : Bool), y)).1 = e := by
  cases e <;> simp

/-- Claim C7: swap legality is symmetric — `canMove(a,b)` and `canMove(b,a)`
return the same boolean on every state and every pair of positions. -/
theorem c7_canMove_symm (cfg : Cfg T) (s : BState T) (a b : Position) :
    canMoveB cfg s a b = canMoveB cfg s b a := by
  rcases hA : piece cfg s.data a with _ | va <;>
    rcases hB : piece cfg s.data b with _ | vb <;>
      simp only [canMoveB, canMove, hA, hB]
  by_cases hv : va = vb
  · rw [if_pos hv, if_pos hv.symm]
  · rw [if_neg hv, if_neg (fun hh : vb = va => hv hh.symm)]
    by_cases hc : a.col = b.col ∨ a.row = b.row
    · have hc' : b.col = a.col ∨ b.row = a.row := by
        rcases hc with h | h
        · exact Or.inl h.symm
        · exact Or.inr h.symm
      rw [if_pos hc, if_pos hc']
      have ha := piece_some_inb cfg s.data a va hA
      have hb := piece_some_inb cfg s.data b vb hB
      have hgrid : change cfg s.data a b = change cfg s.data b a :=
        change_symm cfg s.data a b ha hb
      simp only [changeS, hgrid]
      rw [fst_ite_bool, fst_ite_bool]
      generalize evaluateColumnMatch cfg (change cfg s.data b a) a vb = m1
      generalize evaluateColumnMatch cfg (change cfg s.data b a) b va = m2
      generalize evaluateRowMatch cfg (change cfg s.data b a) a vb = m3
      generalize evaluateRowMatch cfg (change cfg s.data b a) b va = m4
      cases m1 <;> cases m2 <;> cases m3 <;> cases m4 <;> rfl
    · have hc' : ¬(b.col = a.col ∨ b.row = a.row) := by
        rintro (h | h)
        · exact hc (Or.inl h.symm)
        · exact hc (Or.inr h.symm)
      rw [if_neg hc, if_neg hc']

/-! Directional lookahead checks (claim C3). -/

/-- Claim C3, amended: each directional check returns true exactly when some
fully in-bounds window of three consecutive cells whose start offset lies in
`pos - 2 … pos + 2` is all equal to the target value; the windows starting at
`pos + 1` and `pos + 2` do not contain the target position. -/
theorem c3_window_scan (cfg : Cfg T) (d : Grid T) (p : Position) (t : T) :
    (evaluateColumnMatch cfg d p t = true ↔
      ∃ k : Nat, k < 5 ∧ windowColAllEq cfg d p.row (p.col - 2 + (k : Int)) t) ∧
    (evaluateRowMatch cfg d p t = true ↔
      ∃ k : Nat, k < 5 ∧ windowRowAllEq cfg d p.col (p.row - 2 + (k : Int)) t) := by
  constructor
  · simp only [evaluateColumnMatch, List.any_eq_true, List.mem_range, Bool.and_eq_true,
      decide_eq_true_eq, windowColAllEq, and_assoc]
  · simp only [evaluateRowMatch, List.any_eq_true, List.mem_range, Bool.and_eq_true,
      decide_eq_true_eq, windowRowAllEq, and_assoc]

/-- Counterexample to claim C3 as stated: on a 1-by-6 row `B A A A B B`, the
check at the leftmost cell with target `A` returns true (the window starting
one past the target is all `A`), although no window containing the target
position is all `A`. -/
theorem c3_window_scan_counterexample :
    evaluateColumnMatch cfg3 d3 ⟨0, 0⟩ 0 = true ∧
    containingColCheck cfg3 d3 ⟨0, 0⟩ 0 = false := by decide

/-! The full-board scan (claims C1, C4, C10). -/

theorem findColumnMatch_false (cfg : Cfg T) (s : BState T) (r c : Nat)
    (h : (findColumnMatch cfg s r c).1 = false) : (findColumnMatch cfg s r c).2 = s := by
  revert h
  simp only [findColumnMatch]
  split
  · simp
  · intro _; rfl

theorem findColumnMatch_true (cfg : Cfg T) (s : BState T) (r c : Nat)
    (h : (findColumnMatch cfg s r c).1 = true) :
    ∃ m, (findColumnMatch cfg s r c).2 = pushMatch s m := by
  revert h
  simp only [findColumnMatch]
  split
  · exact fun _ => ⟨_, rfl⟩
  · simp

theorem findColumnMatch_false_window (cfg : Cfg T) (s : BState T) (r c : Nat)
    (h : (findColumnMatch cfg s r c).1 = false) :
    ¬(piece cfg s.data ⟨(r : Int), (c : Int)⟩ =
        piece cfg s.data ⟨(r : Int), ((c + 1 : Nat) : Int)⟩ ∧
      piece cfg s.data ⟨(r : Int), ((c + 1 : Nat) : Int)⟩ =
        piece cfg s.data ⟨(r : Int), ((c + 2 : Nat) : Int)⟩) := by
  revert h
  simp only [findColumnMatch]
  split
  · simp
  · next hneg =>
    intro _ hcon
    exact hneg ⟨hcon.1, hcon.2, hcon.1.trans hcon.2⟩

theorem findRowMatch_false (cfg : Cfg T) (s : BState T) (r c : Nat)
    (h : (findRowMatch cfg s r c).1 = false) : (findRowMatch cfg s r c).2 = s := by
  revert h
  simp only [findRowMatch]
  split
  · simp
  · intro _; rfl

theorem findRowMatch_true (cfg : Cfg T) (s : BState T) (r c : Nat)
    (h : (findRowMatch cfg s r c).1 = true) :
    ∃ m, (findRowMatch cfg s r c).2 = pushMatch s m := by
  revert h
  simp only [findRowMatch]
  split
  · exact fun _ => ⟨_, rfl⟩
  · simp

theorem findRowMatch_false_window (cfg : Cfg T) (s : BState T) (r c : Nat)
    (h : (findRowMatch cfg s r c).1 = false) :
    ¬(piece cfg s.data ⟨(r : Int), (c : Int)⟩ =
        piece cfg s.data ⟨((r + 1 : Nat) : Int), (c : Int)⟩ ∧
      piece cfg s.data ⟨((r + 1 : Nat) : Int), (c : Int)⟩ =
        piece cfg s.data ⟨((r + 2 : Nat) : Int), (c : Int)⟩) := by
  revert h
  simp only [findRowMatch]
  split
  · simp
  · next hneg =>
    intro _ hcon
    exact hneg ⟨hcon.1, hcon.2, hcon.1.trans hcon.2⟩

theorem scanPairs_stay (check : BState T → Nat → Nat → Bool × BState T) :
    ∀ (pairs : List (Nat × Nat)) (acc : Bool × BState T), acc.1 = true →
      pairs.foldl (fun acc rc => if acc.1 then acc else check acc.2 rc.1 rc.2) acc = acc := by
  intro pairs
  induction pairs with
  | nil => intro acc _; rfl
  | cons rc rest ih =>
    intro acc h
    have h1 : (if acc.1 = true then acc else check acc.2 rc.1 rc.2) = acc := if_pos h
    calc (rc :: rest).foldl (fun acc rc => if acc.1 then acc else check acc.2 rc.1 rc.2) acc
        = rest.foldl (fun acc rc => if acc.1 then acc else check acc.2 rc.1 rc.2) acc := by
          rw [List.foldl_cons, h1]
      _ = acc := ih acc h

theorem scanPairs_false (check : BState T → Nat → Nat → Bool × BState T)
    (hf : ∀ s r c, (check s r c).1 = false → (check s r c).2 = s) :
    ∀ (pairs : List (Nat × Nat)) (s : BState T), (scanPairs check pairs s).1 = false →
      (scanPairs check pairs s).2 = s ∧ ∀ rc ∈ pairs, (check s rc.1 rc.2).1 = false := by
  intro pairs
  induction pairs with
  | nil => intro s _; exact ⟨rfl, by simp⟩
  | cons rc rest ih =>
    intro s h
    have hstep : scanPairs check (rc :: rest) s =
        rest.foldl (fun acc rc => if acc.1 then acc else check acc.2 rc.1 rc.2)
          (check s rc.1 rc.2) := rfl
    cases hflag : (check s rc.1 rc.2).1 with
    | true =>
      have hstay : scanPairs check (rc :: rest) s = check s rc.1 rc.2 := by
        rw [hstep]
        exact scanPairs_stay check rest _ hflag
      rw [hstay, hflag] at h
      cases h
    | false =>
      have h2 := hf s rc.1 rc.2 hflag
      have hpair : check s rc.1 rc.2 = ((false : Bool), s) := Prod.ext hflag h2
      have hred : scanPairs check (rc :: rest) s = scanPairs check rest s := by
        rw [hstep, hpair]; rfl
      rw [hred] at h
      obtain ⟨ih1, ih2⟩ := ih s h
      rw [hred]
      refine ⟨ih1, ?_⟩
      intro p hp
      rcases List.mem_cons.mp hp with hp | hp
      · subst hp; exact hflag
      · exact ih2 p hp

theorem scanPairs_cases (check : BState T → Nat → Nat → Bool × BState T)
    (hf : ∀ s r c, (check s r c).1 = false → (check s r c).2 = s)
    (ht : ∀ s r c, (check s r c).1 = true → ∃ m, (check s r c).2 = pushMatch s m) :
    ∀ (pairs : List (Nat × Nat)) (s : BState T),
      ((scanPairs check pairs s).1 = false ∧ (scanPairs check pairs s).2 = s) ∨
      ((scanPairs check pairs s).1 = true ∧
        ∃ m, (scanPairs check pairs s).2 = pushMatch s m) := by
  intro pairs
  induction pairs with
  | nil => intro s; exact Or.inl ⟨rfl, rfl⟩
  | cons rc rest ih =>
    intro s
    have hstep : scanPairs check (rc :: rest) s =
        rest.foldl (fun acc rc => if acc.1 then acc else check acc.2 rc.1 rc.2)
          (check s rc.1 rc.2) := rfl
    cases hflag : (check s rc.1 rc.2).1 with
    | true =>
      obtain ⟨m, hm⟩ := ht s rc.1 rc.2 hflag
      have hpair : check s rc.1 rc.2 = ((true : Bool), pushMatch s m) := Prod.ext hflag hm
      have hres : scanPairs check (rc :: rest) s = ((true : Bool), pushMatch s m) := by
        rw [hstep, hpair]
        exact scanPairs_stay check rest _ rfl
      rw [hres]
      exact Or.inr ⟨rfl, m, rfl⟩
    | false =>
      have h2 := hf s rc.1 rc.2 hflag
      have hpair : check s rc.1 rc.2 = ((false : Bool), s) := Prod.ext hflag h2
      have hred : scanPairs check (rc :: rest) s = scanPairs check rest s := by
        rw [hstep, hpair]; rfl
      rw [hred]
      exact ih s

theorem mem_hPairs (cfg : Cfg T) (r c : Nat) :
    (r, c) ∈ hPairs cfg ↔ r < cfg.height ∧ c + 2 < cfg.width := by
  simp only [hPairs, List.mem_flatMap, List.mem_map, List.mem_range, Prod.mk.injEq]
  constructor
  · rintro ⟨a, ha, b, hb, h1, h2⟩
    subst h1; subst h2
    omega
  · rintro ⟨h1, h2⟩
    exact ⟨r, h1, c, by omega, rfl, rfl⟩

theorem mem_vPairs (cfg : Cfg T) (r c : Nat) :
    (r, c) ∈ vPairs cfg ↔ r + 2 < cfg.height ∧ c < cfg.width := by
  simp only [vPairs, List.mem_flatMap, List.mem_map, List.mem_range, Prod.mk.injEq]
  constructor
  · rintro ⟨a, ha, b, hb, h1, h2⟩
    subst h1; subst h2
    omega
  · rintro ⟨h1, h2⟩
    exact ⟨r, by omega, c, h2, rfl, rfl⟩

theorem findMatches_false (cfg : Cfg T) (s : BState T)
    (h : (findMatches cfg s).1 = false) :
    (findMatches cfg s).2 = s ∧ Quiescent cfg s.data := by
  have hor : (scanPairs (findColumnMatch cfg) (hPairs cfg) s).1 = false ∧
      (scanPairs (findRowMatch cfg) (vPairs cfg)
        (scanPairs (findColumnMatch cfg) (hPairs cfg) s).2).1 = false := by
    have : (findMatches cfg s).1 =
        ((scanPairs (findColumnMatch cfg) (hPairs cfg) s).1 ||
         (scanPairs (findRowMatch cfg) (vPairs cfg)
           (scanPairs (findColumnMatch cfg) (hPairs cfg) s).2).1) := rfl
    rw [this] at h
    exact Bool.or_eq_false_iff.mp h
  obtain ⟨hH, hV⟩ := hor
  obtain ⟨hH2, hHall⟩ := scanPairs_false (findColumnMatch cfg) (findColumnMatch_false cfg)
    (hPairs cfg) s hH
  rw [hH2] at hV
  obtain ⟨hV2, hVall⟩ := scanPairs_false (findRowMatch cfg) (findRowMatch_false cfg)
    (vPairs cfg) s hV
  have hsnd : (findMatches cfg s).2 =
      (scanPairs (findRowMatch cfg) (vPairs cfg)
        (scanPairs (findColumnMatch cfg) (hPairs cfg) s).2).2 := rfl
  constructor
  · rw [hsnd, hH2, hV2]
  · intro r c
    constructor
    · intro hr hc
      exact findColumnMatch_false_window cfg s r c
        (hHall (r, c) ((mem_hPairs cfg r c).mpr ⟨hr, hc⟩))
    · intro hr hc
      exact findRowMatch_false_window cfg s r c
        (hVall (r, c) ((mem_vPairs cfg r c).mpr ⟨hr, hc⟩))

theorem resolveLoop_some_quiescent (cfg : Cfg T) :
    ∀ (fuel : Nat) (s s' : BState T), resolveLoop cfg fuel s = some s' →
      Quiescent cfg s'.data := by
  intro fuel
  induction fuel with
  | zero => intro s s' h; cases h
  | succ n ih =>
    intro s s' h
    simp only [resolveLoop] at h
    by_cases hp : (findMatches cfg s).1 = true
    · rw [if_pos hp] at h
      cases hinner : resolveLoop cfg n (doMatchRefill cfg (findMatches cfg s).2) with
      | none => rw [hinner] at h; cases h
      | some s2 =>
        rw [hinner] at h
        exact ih s2 s' h
    · have hp' : (findMatches cfg s).1 = false := by
        revert hp; cases (findMatches cfg s).1 <;> simp
      rw [if_neg hp] at h
      have hs' : s' = (findMatches cfg s).2 := by
        injection h with h2
        exact h2.symm
      obtain ⟨heq, hq⟩ := findMatches_false cfg s hp'
      rw [hs', heq]
      exact hq

/-- Claim C1: whenever construction returns, and whenever `move` returns on a
quiescent board, the resulting grid contains no run of three equal collinear
contiguous pieces in either orientation. -/
theorem c1_quiescence (cfg : Cfg T) :
    (∀ (fuel : Nat) (s' : BState T), construct cfg fuel = some s' → Quiescent cfg s'.data) ∧
    (∀ (s : BState T) (a b : Position) (fuel : Nat) (s' : BState T),
      Quiescent cfg s.data → move cfg fuel s a b = some s' → Quiescent cfg s'.data) := by
  constructor
  · intro fuel s' h
    exact resolveLoop_some_quiescent cfg fuel _ s' h
  · intro s a b fuel s' hq h
    simp only [move] at h
    by_cases hc : (canMove cfg s a b).1 = true
    · rw [if_pos hc] at h
      exact resolveLoop_some_quiescent cfg fuel _ s' h
    · rw [if_neg hc] at h
      have hs' : s' = (canMove cfg s a b).2 := by
        injection h with h2
        exact h2.symm
      rw [hs', canMove_state cfg s a b]
      exact hq

/-- Witness for C1: a concrete terminating construction, then a concrete
`move` on the resulting quiescent board, both through the theorem. -/
theorem c1_quiescence_witness : Quiescent cfg0 (initState cfg0).data :=
  (c1_quiescence cfg0).2 (initState cfg0) ⟨0, 0⟩ ⟨0, 1⟩ 1 (initState cfg0)
    ((c1_quiescence cfg0).1 1 (initState cfg0) (by decide)) (by decide)

/-- Claim C4: within one `findMatches` pass the first orientation records at
most one match and one event, the second orientation adds at most one more,
so a full pass records at most two matches and emits at most two `Match`
events. -/
theorem c4_scan_early_exit (cfg : Cfg T) (s : BState T) :
    (scanPairs (findColumnMatch cfg) (hPairs cfg) s).2.matchList.length ≤
      s.matchList.length + 1 ∧
    (scanPairs (findColumnMatch cfg) (hPairs cfg) s).2.events.length ≤
      s.events.length + 1 ∧
    (findMatches cfg s).2.matchList.length ≤
      (scanPairs (findColumnMatch cfg) (hPairs cfg) s).2.matchList.length + 1 ∧
    (findMatches cfg s).2.events.length ≤
      (scanPairs (findColumnMatch cfg) (hPairs cfg) s).2.events.length + 1 ∧
    (findMatches cfg s).2.matchList.length ≤ s.matchList.length + 2 ∧
    (findMatches cfg s).2.events.length ≤ s.events.length + 2 := by
  have hH := scanPairs_cases (findColumnMatch cfg) (findColumnMatch_false cfg)
    (findColumnMatch_true cfg) (hPairs cfg) s
  have hV := scanPairs_cases (findRowMatch cfg) (findRowMatch_false cfg)
    (findRowMatch_true cfg) (vPairs cfg) (scanPairs (findColumnMatch cfg) (hPairs cfg) s).2
  have hsnd : (findMatches cfg s).2 =
      (scanPairs (findRowMatch cfg) (vPairs cfg)
        (scanPairs (findColumnMatch cfg) (hPairs cfg) s).2).2 := rfl
  have h1 : (scanPairs (findColumnMatch cfg) (hPairs cfg) s).2.matchList.length ≤
        s.matchList.length + 1 ∧
      (scanPairs (findColumnMatch cfg) (hPairs cfg) s).2.events.length ≤
        s.events.length + 1 := by
    rcases hH with ⟨_, h2⟩ | ⟨_, m, h2⟩ <;> rw [h2] <;> simp [pushMatch]
  have h2 : (findMatches cfg s).2.matchList.length ≤
        (scanPairs (findColumnMatch cfg) (hPairs cfg) s).2.matchList.length + 1 ∧
      (findMatches cfg s).2.events.length ≤
        (scanPairs (findColumnMatch cfg) (hPairs cfg) s).2.events.length + 1 := by
    rw [hsnd]
    rcases hV with ⟨_, h3⟩ | ⟨_, m, h3⟩ <;> rw [h3] <;> simp [pushMatch]
  exact ⟨h1.1, h1.2, h2.1, h2.2, by omega, by omega⟩

theorem pushMatch_silent (s : BState T) (m : MatchR T) :
    (pushMatch s m).listeners = s.listeners ∧
    (s.listeners = [] → (pushMatch s m).deliveries = s.deliveries) := by
  constructor
  · rfl
  · intro h
    simp [pushMatch, h]

theorem findMatches_silent (cfg : Cfg T) (s : BState T) :
    (findMatches cfg s).2.listeners = s.listeners ∧
    (s.listeners = [] → (findMatches cfg s).2.deliveries = s.deliveries) := by
  have hH := scanPairs_cases (findColumnMatch cfg) (findColumnMatch_false cfg)
    (findColumnMatch_true cfg) (hPairs cfg) s
  have hV := scanPairs_cases (findRowMatch cfg) (findRowMatch_false cfg)
    (findRowMatch_true cfg) (vPairs cfg) (scanPairs (findColumnMatch cfg) (hPairs cfg) s).2
  have hsnd : (findMatches cfg s).2 =
      (scanPairs (findRowMatch cfg) (vPairs cfg)
        (scanPairs (findColumnMatch cfg) (hPairs cfg) s).2).2 := rfl
  rw [hsnd]
  rcases hH with ⟨_, h2⟩ | ⟨_, m, h2⟩ <;>
    rcases hV with ⟨_, h3⟩ | ⟨_, m2, h3⟩ <;> rw [h3, h2] <;>
      exact ⟨by simp [pushMatch], fun hnil => by simp [pushMatch, hnil]⟩

theorem doMatchRefill_silent (cfg : Cfg T) (s : BState T) :
    (doMatchRefill cfg s).listeners = s.listeners ∧
    (s.listeners = [] → (doMatchRefill cfg s).deliveries = s.deliveries) := by
  constructor
  · rfl
  · intro h
    simp [doMatchRefill, gravity, alert, clearMatches, h]

theorem resolveLoop_silent (cfg : Cfg T) :
    ∀ (fuel : Nat) (s s' : BState T), resolveLoop cfg fuel s = some s' →
      s'.listeners = s.listeners ∧ (s.listeners = [] → s'.deliveries = s.deliveries) := by
  intro fuel
  induction fuel with
  | zero => intro s s' h; cases h
  | succ n ih =>
    intro s s' h
    simp only [resolveLoop] at h
    by_cases hp : (findMatches cfg s).1 = true
    · rw [if_pos hp] at h
      cases hinner : resolveLoop cfg n (doMatchRefill cfg (findMatches cfg s).2) with
      | none => rw [hinner] at h; cases h
      | some s2 =>
        rw [hinner] at h
        have hfm := findMatches_silent cfg s
        have hdm := doMatchRefill_silent cfg (findMatches cfg s).2
        have hin := ih _ s2 hinner
        have hout := ih s2 s' h
        constructor
        · rw [hout.1, hin.1, hdm.1, hfm.1]
        · intro hnil
          have e1 : (findMatches cfg s).2.listeners = [] := by rw [hfm.1]; exact hnil
          have e2 : (doMatchRefill cfg (findMatches cfg s).2).listeners = [] := by
            rw [hdm.1]; exact e1
          have e3 : s2.listeners = [] := by rw [hin.1]; exact e2
          rw [hout.2 e3, hin.2 e2, hdm.2 e1, hfm.2 hnil]
    · rw [if_neg hp] at h
      have hp' : (findMatches cfg s).1 = false := by
        revert hp; cases (findMatches cfg s).1 <;> simp
      have hs' : s' = (findMatches cfg s).2 := by
        injection h with h2
        exact h2.symm
      obtain ⟨heq, _⟩ := findMatches_false cfg s hp'
      rw [hs', heq]
      exact ⟨rfl, fun _ => rfl⟩

/-- Claim C10: construction never delivers an event to any listener — the
listener list is empty for the whole constructor run, so every `Match` and
`Refill` event emitted while resolving the initial fill reaches no callback. -/
theorem c10_construct_no_delivery (cfg : Cfg T) (fuel : Nat) (s' : BState T)
    (h : construct cfg fuel = some s') : s'.listeners = [] ∧ s'.deliveries = [] := by
  have hs := resolveLoop_silent cfg fuel (initState cfg) s' h
  exact ⟨hs.1, hs.2 rfl⟩

/-- Witness for C10 on a concrete terminating construction. -/
theorem c10_construct_no_delivery_witness :
    (initState cfg0).listeners = [] ∧ (initState cfg0).deliveries = [] :=
  c10_construct_no_delivery cfg0 1 (initState cfg0) (by decide)

/-! Termination of the resolve loop (claim C2).  With the constant generator
on a 1-by-3 board, one full pass finds the horizontal run, clears it, and
gravity refills every cleared cell with the same constant value, so the grid
returns to the all-equal state and the loop never reaches a matchless fixed
point.  Because only the grid and the pending-match list influence what the
loop does next (the generator being constant, the call counter is
irrelevant), every state of the diverging run can be relayed to the one
concrete representative `sK`. -/

theorem findColumnMatch_R (cfg : Cfg T) (s t : BState T) (r c : Nat)
    (hd : s.data = t.data) (hm : s.matchList = t.matchList) :
    (findColumnMatch cfg s r c).1 = (findColumnMatch cfg t r c).1 ∧
    (findColumnMatch cfg s r c).2.data = (findColumnMatch cfg t r c).2.data ∧
    (findColumnMatch cfg s r c).2.matchList = (findColumnMatch cfg t r c).2.matchList := by
  simp only [findColumnMatch, hd, hm]
  split
  · refine ⟨rfl, ?_, ?_⟩ <;> simp [alert, hd, hm]
  · exact ⟨rfl, hd, hm⟩

theorem findRowMatch_R (cfg : Cfg T) (s t : BState T) (r c : Nat)
    (hd : s.data = t.data) (hm : s.matchList = t.matchList) :
    (findRowMatch cfg s r c).1 = (findRowMatch cfg t r c).1 ∧
    (findRowMatch cfg s r c).2.data = (findRowMatch cfg t r c).2.data ∧
    (findRowMatch cfg s r c).2.matchList = (findRowMatch cfg t r c).2.matchList := by
  simp only [findRowMatch, hd, hm]
  split
  · refine ⟨rfl, ?_, ?_⟩ <;> simp [alert, hd, hm]
  · exact ⟨rfl, hd, hm⟩

theorem scanPairs_R (check : BState T → Nat → Nat → Bool × BState T)
    (hf : ∀ s r c, (check s r c).1 = false → (check s r c).2 = s)
    (hch : ∀ (s t : BState T) (r c : Nat), s.data = t.data → s.matchList = t.matchList →
      (check s r c).1 = (check t r c).1 ∧ (check s r c).2.data = (check t r c).2.data ∧
      (check s r c).2.matchList = (check t r c).2.matchList) :
    ∀ (pairs : List (Nat × Nat)) (s t : BState T), s.data = t.data →
      s.matchList = t.matchList →
      (scanPairs check pairs s).1 = (scanPairs check pairs t).1 ∧
      (scanPairs check pairs s).2.data = (scanPairs check pairs t).2.data ∧
      (scanPairs check pairs s).2.matchList = (scanPairs check pairs t).2.matchList := by
  intro pairs
  induction pairs with
  | nil => intro s t hd hm; exact ⟨rfl, hd, hm⟩
  | cons rc rest ih =>
    intro s t hd hm
    have hsteps : scanPairs check (rc :: rest) s =
        rest.foldl (fun acc rc => if acc.1 then acc else check acc.2 rc.1 rc.2)
          (check s rc.1 rc.2) := rfl
    have hstept : scanPairs check (rc :: rest) t =
        rest.foldl (fun acc rc => if acc.1 then acc else check acc.2 rc.1 rc.2)
          (check t rc.1 rc.2) := rfl
    have hmain := hch s t rc.1 rc.2 hd hm
    cases hflag : (check s rc.1 rc.2).1 with
    | true =>
      have hflagt : (check t rc.1 rc.2).1 = true := by rw [← hmain.1]; exact hflag
      have hs : scanPairs check (rc :: rest) s = check s rc.1 rc.2 := by
        rw [hsteps]; exact scanPairs_stay check rest _ hflag
      have ht : scanPairs check (rc :: rest) t = check t rc.1 rc.2 := by
        rw [hstept]; exact scanPairs_stay check rest _ hflagt
      rw [hs, ht]
      exact hmain
    | false =>
      have hflagt : (check t rc.1 rc.2).1 = false := by rw [← hmain.1]; exact hflag
      have hpair : check s rc.1 rc.2 = ((false : Bool), s) :=
        Prod.ext hflag (hf s rc.1 rc.2 hflag)
      have hpairt : check t rc.1 rc.2 = ((false : Bool), t) :=
        Prod.ext hflagt (hf t rc.1 rc.2 hflagt)
      have hs : scanPairs check (rc :: rest) s = scanPairs check rest s := by
        rw [hsteps, hpair]; rfl
      have ht : scanPairs check (rc :: rest) t = scanPairs check rest t := by
        rw [hstept, hpairt]; rfl
      rw [hs, ht]
      exact ih s t hd hm

theorem findMatches_R (cfg : Cfg T) (s t : BState T) (hd : s.data = t.data)
    (hm : s.matchList = t.matchList) :
    (findMatches cfg s).1 = (findMatches cfg t).1 ∧
    (findMatches cfg s).2.data = (findMatches cfg t).2.data ∧
    (findMatches cfg s).2.matchList = (findMatches cfg t).2.matchList := by
  have hH := scanPairs_R (findColumnMatch cfg) (findColumnMatch_false cfg)
    (findColumnMatch_R cfg) (hPairs cfg) s t hd hm
  have hV := scanPairs_R (findRowMatch cfg) (findRowMatch_false cfg)
    (findRowMatch_R cfg) (vPairs cfg) (scanPairs (findColumnMatch cfg) (hPairs cfg) s).2
    (scanPairs (findColumnMatch cfg) (hPairs cfg) t).2 hH.2.1 hH.2.2
  refine ⟨?_, hV.2.1, hV.2.2⟩
  show ((scanPairs (findColumnMatch cfg) (hPairs cfg) s).1 || _) = _
  rw [hH.1, hV.1]
  rfl

theorem processRow_fst_const (g : Nat → T) (hg : ∀ i j, g i = g j) (row : Nat) :
    ∀ (st st' : List (Option T) × Nat), st.1 = st'.1 →
      (processRow g st row).1 = (processRow g st' row).1 := by
  intro st st' h
  by_cases hc : st'.1.getD row none = none
  · have hcs : st.1.getD row none = none := by rw [h]; exact hc
    cases hfa : findAboveIdx st'.1 row with
    | some rA =>
      have hfas : findAboveIdx st.1 row = some rA := by rw [h]; exact hfa
      simp only [processRow, hcs, hc, if_pos, hfa, hfas, h]
    | none =>
      have hfas : findAboveIdx st.1 row = none := by rw [h]; exact hfa
      simp only [processRow, hcs, hc, if_pos, hfa, hfas, h, hg st.2 st'.2]
  · have hcs : ¬st.1.getD row none = none := by rw [h]; exact hc
    simp only [processRow, if_neg hcs, if_neg hc, h]

theorem foldlRows_fst_const (g : Nat → T) (hg : ∀ i j, g i = g j) :
    ∀ (rows : List Nat) (st st' : List (Option T) × Nat), st.1 = st'.1 →
      (rows.foldl (processRow g) st).1 = (rows.foldl (processRow g) st').1 := by
  intro rows
  induction rows with
  | nil => intro st st' h; exact h
  | cons row rest ih =>
    intro st st' h
    rw [List.foldl_cons, List.foldl_cons]
    exact ih _ _ (processRow_fst_const g hg row st st' h)

theorem refill_fst_const (cfg : Cfg T) (hg : ∀ i j, cfg.gen i = cfg.gen j) :
    ∀ (cols : List Nat) (st st' : Grid T × Nat), st.1 = st'.1 →
      (cols.foldl (colStep cfg) st).1 = (cols.foldl (colStep cfg) st').1 := by
  intro cols
  induction cols with
  | nil => intro st st' h; exact h
  | cons c rest ih =>
    intro st st' h
    rw [List.foldl_cons, List.foldl_cons]
    apply ih
    show setColumn c st.1 (processColumn cfg.gen cfg.height (columnOf st.1 c) st.2).1 =
      setColumn c st'.1 (processColumn cfg.gen cfg.height (columnOf st'.1 c) st'.2).1
    have hpc : (processColumn cfg.gen cfg.height (columnOf st'.1 c) st.2).1 =
        (processColumn cfg.gen cfg.height (columnOf st'.1 c) st'.2).1 :=
      foldlRows_fst_const cfg.gen hg ((List.range cfg.height).reverse)
        (columnOf st'.1 c, st.2) (columnOf st'.1 c, st'.2) rfl
    rw [h, hpc]

theorem doMatchRefill_R (cfg : Cfg T) (hg : ∀ i j, cfg.gen i = cfg.gen j)
    (s t : BState T) (hd : s.data = t.data) (hm : s.matchList = t.matchList) :
    (doMatchRefill cfg s).data = (doMatchRefill cfg t).data ∧
    (doMatchRefill cfg s).matchList = (doMatchRefill cfg t).matchList := by
  constructor
  · show (refillBoardGravity cfg (s.matchList.foldl clearMatch s.data, s.genIdx)).1 =
      (refillBoardGravity cfg (t.matchList.foldl clearMatch t.data, t.genIdx)).1
    rw [hd, hm]
    exact refill_fst_const cfg hg (List.range cfg.width)
      (t.matchList.foldl clearMatch t.data, s.genIdx)
      (t.matchList.foldl clearMatch t.data, t.genIdx) rfl
  · rfl

theorem resolveLoop_R (cfg : Cfg T) (hg : ∀ i j, cfg.gen i = cfg.gen j) :
    ∀ (fuel : Nat) (s t : BState T), s.data = t.data → s.matchList = t.matchList →
      (resolveLoop cfg fuel s = none ∧ resolveLoop cfg fuel t = none) ∨
      (∃ s' t', resolveLoop cfg fuel s = some s' ∧ resolveLoop cfg fuel t = some t' ∧
        s'.data = t'.data ∧ s'.matchList = t'.matchList) := by
  intro fuel
  induction fuel with
  | zero => intro s t hd hm; exact Or.inl ⟨rfl, rfl⟩
  | succ n ih =>
    intro s t hd hm
    have hfm := findMatches_R cfg s t hd hm
    by_cases hp : (findMatches cfg s).1 = true
    · have hpt : (findMatches cfg t).1 = true := by rw [← hfm.1]; exact hp
      have hdm := doMatchRefill_R cfg hg (findMatches cfg s).2 (findMatches cfg t).2
        hfm.2.1 hfm.2.2
      have hunf : resolveLoop cfg (n + 1) s =
          (match resolveLoop cfg n (doMatchRefill cfg (findMatches cfg s).2) with
            | none => none
            | some s2 => resolveLoop cfg n s2) := by
        simp only [resolveLoop]
        rw [if_pos hp]
      have hunft : resolveLoop cfg (n + 1) t =
          (match resolveLoop cfg n (doMatchRefill cfg (findMatches cfg t).2) with
            | none => none
            | some s2 => resolveLoop cfg n s2) := by
        simp only [resolveLoop]
        rw [if_pos hpt]
      rcases ih (doMatchRefill cfg (findMatches cfg s).2)
          (doMatchRefill cfg (findMatches cfg t).2) hdm.1 hdm.2 with
        ⟨h1, h2⟩ | ⟨s2, t2, h1, h2, hr1, hr2⟩
      · rw [hunf, hunft, h1, h2]
        exact Or.inl ⟨rfl, rfl⟩
      · rw [hunf, hunft, h1, h2]
        exact ih s2 t2 hr1 hr2
    · have hp' : (findMatches cfg s).1 = false := by
        revert hp; cases (findMatches cfg s).1 <;> simp
      have hpt : ¬(findMatches cfg t).1 = true := by rw [← hfm.1]; exact hp
      have hunf : resolveLoop cfg (n + 1) s = some (findMatches cfg s).2 := by
        simp only [resolveLoop]
        rw [if_neg hp]
      have hunft : resolveLoop cfg (n + 1) t = some (findMatches cfg t).2 := by
        simp only [resolveLoop]
        rw [if_neg hpt]
      exact Or.inr ⟨(findMatches cfg s).2, (findMatches cfg t).2, hunf, hunft,
        hfm.2.1, hfm.2.2⟩

theorem resolveLoop_sK_none : ∀ n : Nat, resolveLoop cfgK n sK = none := by
  intro n
  induction n with
  | zero => rfl
  | succ m ih =>
    have hflag : (findMatches cfgK sK).1 = true := rfl
    have hstep : doMatchRefill cfgK (findMatches cfgK sK).2 = sK1 := rfl
    simp only [resolveLoop]
    rw [if_pos hflag, hstep]
    rcases resolveLoop_R cfgK (fun _ _ => rfl) m sK1 sK rfl rfl with
      ⟨h1, _⟩ | ⟨s2, t2, h1, h2, _, _⟩
    · rw [h1]
    · rw [ih] at h2
      cases h2

theorem construct_cfgK_none : ∀ fuel : Nat, construct cfgK fuel = none := by
  intro fuel
  show resolveLoop cfgK fuel (initState cfgK) = none
  rcases resolveLoop_R cfgK (fun _ _ => rfl) fuel (initState cfgK) sK rfl rfl with
    ⟨h1, _⟩ | ⟨s', t', h1, h2, _, _⟩
  · exact h1
  · rw [resolveLoop_sK_none fuel] at h2
    cases h2

/-! Gravity refill (claim C8): helper lemmas on columns. -/

theorem getD_append_at (l t : List (Option T)) (a : Option T) :
    (l ++ a :: t).getD l.length none = a := by
  rw [List.getD_append_right _ _ _ _ (Nat.le_refl _), Nat.sub_self, List.getD_cons_zero]

theorem getD_append_after (l t : List (Option T)) (a : Option T) (j : Nat)
    (h : l.length < j) : (l ++ a :: t).getD j none = t.getD (j - l.length - 1) none := by
  rw [List.getD_append_right _ _ _ _ (Nat.le_of_lt h)]
  obtain ⟨k, hk⟩ : ∃ k, j - l.length = k + 1 ∧ k = j - l.length - 1 :=
    ⟨j - l.length - 1, by omega, rfl⟩
  rw [hk.1, List.getD_cons_succ, hk.2]
  have he : j - l.length - 1 + 1 - 1 = j - l.length - 1 := by omega
  rw [he]

theorem getD_mem_of_lt (l : List (Option T)) (j : Nat) (h : j < l.length) :
    l.getD j none ∈ l := by
  rw [List.getD_eq_getElem _ _ h]
  exact List.getElem_mem _

theorem getD_replicate_none (n j : Nat) (h : j < n) :
    (List.replicate n (none : Option T)).getD j none = none := by
  rw [List.getD_eq_getElem _ _ (by simpa using h)]
  simp

theorem set_append_at (l t : List (Option T)) (a v : Option T) :
    (l ++ a :: t).set l.length v = l ++ v :: t := by
  rw [List.set_append_right _ _ (Nat.le_refl _), Nat.sub_self]
  rfl

theorem survivors_append (l t : List (Option T)) :
    survivors (l ++ t) = survivors l ++ survivors t := by
  simp [survivors, List.filter_append]

theorem survivors_all_none (l : List (Option T)) (h : ∀ y ∈ l, y = none) :
    survivors l = [] := by
  simp only [survivors, List.filter_eq_nil_iff]
  intro a ha
  rw [h a ha]
  simp

theorem survivors_length_le (l : List (Option T)) : (survivors l).length ≤ l.length :=
  List.length_filter_le _ _

theorem findAboveIdx_lt (col : List (Option T)) :
    ∀ (r j : Nat), findAboveIdx col r = some j → j < r := by
  intro r
  induction r with
  | zero => intro j h; cases h
  | succ n ih =>
    intro j h
    rw [findAboveIdx] at h
    by_cases hc : (col.getD n none).isSome
    · rw [if_pos hc] at h
      injection h with h
      omega
    · rw [if_neg hc] at h
      have := ih j h
      omega

theorem findAboveIdx_none_of (col : List (Option T)) :
    ∀ (r : Nat), (∀ j, j < r → col.getD j none = none) → findAboveIdx col r = none := by
  intro r
  induction r with
  | zero => intro _; rfl
  | succ n ih =>
    intro h
    rw [findAboveIdx, if_neg (by rw [h n (by omega)]; simp)]
    exact ih fun j hj => h j (by omega)

theorem findAboveIdx_some_of (col : List (Option T)) (r₀ : Nat)
    (h0 : col.getD r₀ none ≠ none) :
    ∀ (r : Nat), (∀ j, r₀ < j → j < r → col.getD j none = none) → r₀ < r →
      findAboveIdx col r = some r₀ := by
  intro r
  induction r with
  | zero => intro _ h; cases h
  | succ n ih =>
    intro hbet hlt
    by_cases hr : r₀ = n
    · subst hr
      rw [findAboveIdx, if_pos (Option.ne_none_iff_isSome.mp h0)]
    · have hlt' : r₀ < n := by omega
      rw [findAboveIdx, if_neg (by rw [hbet n hlt' (by omega)]; simp)]
      exact ih (fun j h1 h2 => hbet j h1 (by omega)) hlt'

theorem findAboveIdx_append (front tail : List (Option T)) :
    ∀ (r : Nat), r ≤ front.length →
      findAboveIdx (front ++ tail) r = findAboveIdx front r := by
  intro r
  induction r with
  | zero => intro _; rfl
  | succ n ih =>
    intro h
    rw [findAboveIdx, findAboveIdx, List.getD_append _ _ _ _ (by omega), ih (by omega)]

theorem processRow_length (g : Nat → T) (st : List (Option T) × Nat) (row : Nat) :
    (processRow g st row).1.length = st.1.length := by
  rw [processRow]
  split
  · split <;> simp
  · rfl

theorem processRow_append (g : Nat → T) (front tail : List (Option T)) (idx row : Nat)
    (h : row < front.length) :
    processRow g (front ++ tail, idx) row =
      ((processRow g (front, idx) row).1 ++ tail, (processRow g (front, idx) row).2) := by
  have hget : (front ++ tail).getD row none = front.getD row none :=
    List.getD_append _ _ _ _ h
  by_cases hc : front.getD row none = none
  · have hfa : findAboveIdx (front ++ tail) row = findAboveIdx front row :=
      findAboveIdx_append front tail row (by omega)
    cases hfind : findAboveIdx front row with
    | some rA =>
      have hrA : rA < row := findAboveIdx_lt front row rA hfind
      have hget2 : (front ++ tail).getD rA none = front.getD rA none :=
        List.getD_append _ _ _ _ (by omega)
      simp only [processRow, hget, hc, if_pos, hfa, hfind, hget2]
      rw [List.set_append_left _ _ h,
        List.set_append_left _ _ (by simp only [List.length_set]; omega)]
    | none =>
      simp only [processRow, hget, hc, if_pos, hfa, hfind]
      rw [List.set_append_left _ _ h]
  · simp only [processRow, hget, if_neg hc]

theorem processColumn_succ (g : Nat → T) (h : Nat) (col : List (Option T)) (idx : Nat) :
    processColumn g (h + 1) col idx =
      ((List.range h).reverse).foldl (processRow g) (processRow g (col, idx) h) := by
  show ((List.range (h + 1)).reverse).foldl (processRow g) (col, idx) = _
  rw [List.range_succ, List.reverse_append]
  rfl

theorem processColumn_append (g : Nat → T) :
    ∀ (h : Nat) (front tail : List (Option T)) (idx : Nat), h ≤ front.length →
      processColumn g h (front ++ tail) idx =
        ((processColumn g h front idx).1 ++ tail, (processColumn g h front idx).2) := by
  intro h
  induction h with
  | zero => intro front tail idx _; rfl
  | succ n ih =>
    intro front tail idx hle
    rw [processColumn_succ, processColumn_succ, processRow_append g front tail idx n (by omega)]
    exact ih (processRow g (front, idx) n).1 tail (processRow g (front, idx) n).2
      (by rw [processRow_length]; exact Nat.le_of_succ_le hle)

theorem genDesc_succ (g : Nat → T) (idx k : Nat) :
    genDesc g idx (k + 1) = genDesc g (idx + 1) k ++ [some (g idx)] := by
  simp only [genDesc, List.range_succ, List.map_append, List.map_cons, List.map_nil]
  congr 1
  · apply List.map_congr_left
    intro j hj
    rw [List.mem_range] at hj
    have he : idx + (k + 1) - 1 - j = idx + 1 + k - 1 - j := by omega
    rw [he]
  · have he : idx + (k + 1) - 1 - k = idx := by omega
    rw [he]

theorem processColumn_replicate (g : Nat → T) :
    ∀ (h idx : Nat),
      processColumn g h (List.replicate h none) idx = (genDesc g idx h, idx + h) := by
  intro h
  induction h with
  | zero => intro idx; rfl
  | succ n ih =>
    intro idx
    rw [processColumn_succ]
    have hcell : (List.replicate (n + 1) (none : Option T)).getD n none = none :=
      getD_replicate_none (n + 1) n (by omega)
    have hfa : findAboveIdx (List.replicate (n + 1) (none : Option T)) n = none :=
      findAboveIdx_none_of _ n fun j hj => getD_replicate_none (n + 1) j (by omega)
    have hset : (List.replicate (n + 1) (none : Option T)).set n (some (g idx)) =
        List.replicate n none ++ [some (g idx)] := by
      have h0 := set_append_at (List.replicate n (none : Option T)) [] none (some (g idx))
      simp only [List.length_replicate] at h0
      rw [List.replicate_succ']
      exact h0
    have hpr : processRow g (List.replicate (n + 1) (none : Option T), idx) n =
        (List.replicate n none ++ [some (g idx)], idx + 1) := by
      simp only [processRow, hcell, if_pos, hfa]
      rw [hset]
    rw [hpr]
    show processColumn g n (List.replicate n none ++ [some (g idx)]) (idx + 1) = _
    rw [processColumn_append g n _ _ _ (by simp), ih (idx + 1), genDesc_succ]
    apply Prod.ext
    · rfl
    · show idx + 1 + n = idx + (n + 1)
      omega

theorem exists_last_some (front : List (Option T)) (h : survivors front ≠ []) :
    ∃ (F1 : List (Option T)) (v : T) (F2 : List (Option T)),
      front = F1 ++ some v :: F2 ∧ ∀ y ∈ F2, y = none := by
  induction front using List.reverseRecOn with
  | nil => simp [survivors] at h
  | append_singleton front a ih =>
    cases a with
    | some v => exact ⟨front, v, [], rfl, by simp⟩
    | none =>
      have h' : survivors front ≠ [] := by
        rw [survivors_append] at h
        simpa [survivors] using h
      obtain ⟨F1, v, F2, he, hall⟩ := ih h'
      refine ⟨F1, v, F2 ++ [none], by rw [he]; simp, ?_⟩
      intro y hy
      rcases List.mem_append.mp hy with hy | hy
      · exact hall y hy
      · simpa using hy

/-- Characterization of one column pass of `refillBoard`: the surviving
pieces settle at the bottom in their original order, and the cells above them
are filled from the generator, the bottom-most fresh cell first. -/
theorem processColumn_spec (g : Nat → T) :
    ∀ (h : Nat) (col : List (Option T)) (idx : Nat), col.length = h →
      processColumn g h col idx =
        (genDesc g idx (h - (survivors col).length) ++ survivors col,
         idx + (h - (survivors col).length)) := by
  intro h
  induction h with
  | zero =>
    intro col idx hl
    have hc : col = [] := List.length_eq_zero.mp hl
    subst hc
    rfl
  | succ n ih =>
    intro col idx hl
    have hne : col ≠ [] := by intro hc; subst hc; simp at hl
    obtain ⟨front, a, hfa⟩ : ∃ front a, col = front ++ [a] :=
      ⟨col.dropLast, col.getLast hne, (List.dropLast_append_getLast hne).symm⟩
    subst hfa
    have hfl : front.length = n := by
      have h2 := hl
      simp only [List.length_append, List.length_cons, List.length_nil] at h2
      omega
    rw [processColumn_succ]
    cases a with
    | some v =>
      have hcell : (front ++ [some v]).getD n none = some v := by
        rw [← hfl]
        exact getD_append_at front [] (some v)
      have hcond : ¬((front ++ [some v], idx).1.getD n none = none) := by
        show ¬((front ++ [some v]).getD n none = none)
        rw [hcell]
        simp
      have hpr : processRow g (front ++ [some v], idx) n = (front ++ [some v], idx) := by
        unfold processRow
        rw [if_neg hcond]
      rw [hpr]
      show processColumn g n (front ++ [some v]) idx = _
      rw [processColumn_append g n front [some v] idx (by omega), ih front idx hfl]
      have hsur : survivors (front ++ [some v]) = survivors front ++ [some v] := by
        rw [survivors_append]
        rfl
      rw [hsur]
      have hslen : (survivors front).length ≤ n := by
        have h3 := survivors_length_le front
        omega
      apply Prod.ext
      · show genDesc g idx (n - (survivors front).length) ++ survivors front ++ [some v] =
          genDesc g idx (n + 1 - (survivors front ++ [some v]).length) ++
            (survivors front ++ [some v])
        have he : n + 1 - (survivors front ++ [some v]).length =
            n - (survivors front).length := by
          simp only [List.length_append, List.length_cons, List.length_nil]
          omega
        rw [he, List.append_assoc]
      · show idx + (n - (survivors front).length) =
          idx + (n + 1 - (survivors front ++ [some v]).length)
        simp only [List.length_append, List.length_cons, List.length_nil]
        omega
    | none =>
      have hcell : (front ++ [none]).getD n none = none := by
        rw [← hfl]
        exact getD_append_at front [] none
      have hsurcol : survivors (front ++ [none]) = survivors front := by
        rw [survivors_append]
        simp [survivors]
      by_cases hs : survivors front = []
      · have hall : ∀ y ∈ front, y = none := by
          intro y hy
          by_contra hne2
          have hmem : y ∈ survivors front := by
            rw [survivors, List.mem_filter]
            exact ⟨hy, by cases y <;> simp_all⟩
          rw [hs] at hmem
          cases hmem
        have hrep : front = List.replicate n none := by
          rw [List.eq_replicate_iff]
          exact ⟨hfl, hall⟩
        have hfa2 : findAboveIdx (front ++ [none]) n = none := by
          apply findAboveIdx_none_of
          intro j hj
          rw [List.getD_append _ _ _ _ (by omega)]
          exact hall _ (getD_mem_of_lt front j (by omega))
        have hsetn : (front ++ [(none : Option T)]).set n (some (g idx)) =
            front ++ [some (g idx)] := by
          rw [← hfl]
          exact set_append_at front [] none (some (g idx))
        have hpr : processRow g (front ++ [none], idx) n =
            (front ++ [some (g idx)], idx + 1) := by
          simp only [processRow, hcell, if_pos, hfa2]
          rw [hsetn]
        rw [hpr]
        show processColumn g n (front ++ [some (g idx)]) (idx + 1) = _
        rw [processColumn_append g n front [some (g idx)] (idx + 1) (by omega)]
        rw [hsurcol, hs, hrep, processColumn_replicate g n (idx + 1)]
        apply Prod.ext
        · show genDesc g (idx + 1) n ++ [some (g idx)] =
            genDesc g idx (n + 1 - ([] : List (Option T)).length) ++ ([] : List (Option T))
          rw [List.append_nil, List.length_nil, Nat.sub_zero, genDesc_succ]
        · show idx + 1 + n = idx + (n + 1 - ([] : List (Option T)).length)
          simp only [List.length_nil, Nat.sub_zero]
          omega
      · obtain ⟨F1, v, F2, hFem, hF2⟩ := exists_last_some front hs
        have hlensum : front.length = F1.length + 1 + F2.length := by
          rw [hFem]
          simp only [List.length_append, List.length_cons]
          omega
        have hF1len : F1.length < n := by omega
        have hget0 : (front ++ [none]).getD F1.length none = some v := by
          rw [List.getD_append _ _ _ _ (by omega), hFem, getD_append_at]
        have hbet : ∀ j, F1.length < j → j < n → (front ++ [none]).getD j none = none := by
          intro j h1 h2
          rw [List.getD_append _ _ _ _ (by omega), hFem, getD_append_after _ _ _ _ h1]
          have hjlen : j - F1.length - 1 < F2.length := by omega
          exact hF2 _ (getD_mem_of_lt F2 _ hjlen)
        have hfa2 : findAboveIdx (front ++ [none]) n = some F1.length :=
          findAboveIdx_some_of _ _ (by rw [hget0]; simp) n hbet hF1len
        have hsetfront : front.set F1.length none = F1 ++ none :: F2 := by
          rw [hFem, set_append_at]
        have hsetn : (front ++ [(none : Option T)]).set n (some v) =
            front ++ [some v] := by
          rw [← hfl]
          exact set_append_at front [] none (some v)
        have hpr : processRow g (front ++ [none], idx) n =
            ((F1 ++ none :: F2) ++ [some v], idx) := by
          simp only [processRow, hcell, if_pos, hfa2, hget0]
          rw [hsetn, List.set_append_left _ _ (by omega), hsetfront]
        rw [hpr]
        show processColumn g n ((F1 ++ none :: F2) ++ [some v]) idx = _
        have hlen2 : (F1 ++ none :: F2).length = n := by
          simp only [List.length_append, List.length_cons]
          omega
        rw [processColumn_append g n (F1 ++ none :: F2) [some v] idx (by omega),
          ih (F1 ++ none :: F2) idx hlen2]
        have hsurmid : survivors (F1 ++ none :: F2) = survivors F1 := by
          rw [survivors_append]
          have h4 : survivors ((none : Option T) :: F2) = survivors F2 := by
            simp [survivors]
          rw [h4, survivors_all_none F2 hF2, List.append_nil]
        have hsurfront : survivors front = survivors F1 ++ [some v] := by
          rw [hFem, survivors_append]
          have h4 : survivors (some v :: F2) = some v :: survivors F2 := by
            simp [survivors]
          rw [h4, survivors_all_none F2 hF2]
        have hsF1 : (survivors F1).length ≤ F1.length := survivors_length_le F1
        rw [hsurmid, hsurcol, hsurfront]
        apply Prod.ext
        · show genDesc g idx (n - (survivors F1).length) ++ survivors F1 ++ [some v] =
            genDesc g idx (n + 1 - (survivors F1 ++ [some v]).length) ++
              (survivors F1 ++ [some v])
          have he : n + 1 - (survivors F1 ++ [some v]).length =
              n - (survivors F1).length := by
            simp only [List.length_append, List.length_cons, List.length_nil]
            omega
          rw [he, List.append_assoc]
        · show idx + (n - (survivors F1).length) =
            idx + (n + 1 - (survivors F1 ++ [some v]).length)
          simp only [List.length_append, List.length_cons, List.length_nil]
          omega

/-- Counterexample to claim C2 as stated: with the constant generator on a
1-by-3 board, construction reaches no matchless fixed point within any finite
number of passes, so the resolve loop does not terminate for every
generator. -/
theorem c2_termination_counterexample : ConstructDivergesConst :=
  construct_cfgK_none

/-- Claim C2, amended: construction and `move` terminate exactly when the
scan-resolve cycle reaches a matchless grid after finitely many passes (once
a pass finds no match, one unit of fuel suffices and the state is returned
unchanged); this is not guaranteed for every generator — the constant
generator on a 1-by-3 board recreates an all-equal grid on every pass and the
loop never returns. -/
theorem c2_termination_behaviour :
    (∀ (cfg : Cfg T) (s : BState T) (fuel : Nat), (findMatches cfg s).1 = false →
      resolveLoop cfg (fuel + 1) s = some s) ∧
    (∀ fuel : Nat, construct cfgK fuel = none) := by
  constructor
  · intro cfg s fuel h
    simp only [resolveLoop]
    rw [if_neg (by rw [h]; exact Bool.false_ne_true), (findMatches_false cfg s h).1]
  · exact construct_cfgK_none

/-- Witness for C2's amended theorem: a concrete quiescent board on which one
unit of fuel returns it unchanged, and concrete fuel on which the constant
generator construction is still unfinished. -/
theorem c2_termination_behaviour_witness :
    resolveLoop cfg0 1 (initState cfg0) = some (initState cfg0) ∧
    construct cfgK 3 = none :=
  ⟨(@c2_termination_behaviour Nat _).1 cfg0 (initState cfg0) 0 (by decide),
   (@c2_termination_behaviour Nat _).2 3⟩

/-! Lifting the column characterization to the whole grid (claim C8). -/

theorem length_setColumn (c : Nat) :
    ∀ (d : Grid T) (nc : List (Option T)), (setColumn c d nc).length = d.length := by
  intro d
  induction d with
  | nil => intro nc; cases nc <;> rfl
  | cons rowL rest ih =>
    intro nc
    cases nc with
    | nil => simp [setColumn, ih]
    | cons v vs => simp [setColumn, ih]

theorem rowLens_setColumn (c : Nat) (w : Nat) :
    ∀ (d : Grid T) (nc : List (Option T)), (∀ rowL ∈ d, rowL.length = w) →
      ∀ rowL ∈ setColumn c d nc, rowL.length = w := by
  intro d
  induction d with
  | nil => intro nc _ rowL h; cases nc <;> cases h
  | cons r0 rest ih =>
    intro nc hall rowL h
    cases nc with
    | nil =>
      rcases List.mem_cons.mp h with h | h
      · subst h
        rw [List.length_set]
        exact hall r0 (by simp)
      · exact ih [] (fun x hx => hall x (by simp [hx])) rowL h
    | cons v vs =>
      rcases List.mem_cons.mp h with h | h
      · subst h
        rw [List.length_set]
        exact hall r0 (by simp)
      · exact ih vs (fun x hx => hall x (by simp [hx])) rowL h

theorem columnOf_setColumn_self (c : Nat) :
    ∀ (d : Grid T) (nc : List (Option T)), (∀ rowL ∈ d, c < rowL.length) →
      nc.length = d.length → columnOf (setColumn c d nc) c = nc := by
  intro d
  induction d with
  | nil =>
    intro nc _ hlen
    have : nc = [] := List.length_eq_zero.mp (by simpa using hlen)
    subst this
    rfl
  | cons r0 rest ih =>
    intro nc hall hlen
    cases nc with
    | nil => simp at hlen
    | cons v vs =>
      show (r0.set c v).getD c none :: columnOf (setColumn c rest vs) c = v :: vs
      rw [getD_set_self _ _ (hall r0 (by simp))]
      exact congrArg (v :: ·) (ih vs (fun x hx => hall x (by simp [hx])) (by simpa using hlen))

theorem columnOf_setColumn_ne (c c' : Nat) (hne : c' ≠ c) :
    ∀ (d : Grid T) (nc : List (Option T)),
      columnOf (setColumn c d nc) c' = columnOf d c' := by
  intro d
  induction d with
  | nil => intro nc; cases nc <;> rfl
  | cons r0 rest ih =>
    intro nc
    cases nc with
    | nil =>
      show (r0.set c none).getD c' none :: _ = r0.getD c' none :: _
      rw [getD_set_ne _ _ (fun h => hne h.symm)]
      exact congrArg (r0.getD c' none :: ·) (ih [])
    | cons v vs =>
      show (r0.set c v).getD c' none :: _ = r0.getD c' none :: _
      rw [getD_set_ne _ _ (fun h => hne h.symm)]
      exact congrArg (r0.getD c' none :: ·) (ih vs)

theorem length_columnOf (d : Grid T) (c : Nat) : (columnOf d c).length = d.length := by
  simp [columnOf]

theorem genBase_succ (cfg : Cfg T) (d : Grid T) (i0 k : Nat) :
    genBase cfg d i0 (k + 1) = genBase cfg d i0 k + missingIn cfg d k := by
  simp only [genBase, List.range_succ, List.map_append, List.sum_append,
    List.map_cons, List.map_nil, List.sum_cons, List.sum_nil]
  omega

theorem refillCols_spec (cfg : Cfg T) (d0 : Grid T) (i0 : Nat) (hwf : WF cfg d0) :
    ∀ k, k ≤ cfg.width →
      ((List.range k).foldl (colStep cfg) (d0, i0)).1.length = d0.length ∧
      (∀ rowL ∈ ((List.range k).foldl (colStep cfg) (d0, i0)).1,
        rowL.length = cfg.width) ∧
      (∀ c, k ≤ c →
        columnOf ((List.range k).foldl (colStep cfg) (d0, i0)).1 c = columnOf d0 c) ∧
      (∀ c, c < k →
        columnOf ((List.range k).foldl (colStep cfg) (d0, i0)).1 c =
          genDesc cfg.gen (genBase cfg d0 i0 c) (missingIn cfg d0 c) ++
            survivors (columnOf d0 c)) ∧
      ((List.range k).foldl (colStep cfg) (d0, i0)).2 = genBase cfg d0 i0 k := by
  intro k
  induction k with
  | zero =>
    intro _
    exact ⟨rfl, hwf.2, fun c _ => rfl, fun c hc => absurd hc (by omega), by simp [genBase]⟩
  | succ k ih =>
    intro hk
    obtain ⟨ihlen, ihrow, ihkeep, ihdone, ihidx⟩ := ih (by omega)
    have hstep : (List.range (k + 1)).foldl (colStep cfg) (d0, i0) =
        colStep cfg ((List.range k).foldl (colStep cfg) (d0, i0)) k := by
      rw [List.range_succ, List.foldl_append]
      rfl
    have hcolk : columnOf ((List.range k).foldl (colStep cfg) (d0, i0)).1 k =
        columnOf d0 k := ihkeep k (by omega)
    have hcollen : (columnOf ((List.range k).foldl (colStep cfg) (d0, i0)).1 k).length =
        cfg.height := by
      rw [length_columnOf, ihlen, hwf.1]
    have hpc := processColumn_spec cfg.gen cfg.height
      (columnOf ((List.range k).foldl (colStep cfg) (d0, i0)).1 k)
      ((List.range k).foldl (colStep cfg) (d0, i0)).2 hcollen
    have hsurlen : (survivors (columnOf d0 k)).length ≤ cfg.height := by
      have h1 := survivors_length_le (columnOf d0 k)
      have h2 : (columnOf d0 k).length = cfg.height := by
        rw [length_columnOf, hwf.1]
      omega
    have hmiss : cfg.height - (survivors (columnOf ((List.range k).foldl (colStep cfg)
        (d0, i0)).1 k)).length = missingIn cfg d0 k := by
      rw [hcolk]
      rfl
    have hpcfst : (processColumn cfg.gen cfg.height
        (columnOf ((List.range k).foldl (colStep cfg) (d0, i0)).1 k)
        ((List.range k).foldl (colStep cfg) (d0, i0)).2).1 =
        genDesc cfg.gen (genBase cfg d0 i0 k) (missingIn cfg d0 k) ++
          survivors (columnOf d0 k) := by
      rw [hpc]
      rw [hcolk, ihidx]
      rfl
    have hpcsnd : (processColumn cfg.gen cfg.height
        (columnOf ((List.range k).foldl (colStep cfg) (d0, i0)).1 k)
        ((List.range k).foldl (colStep cfg) (d0, i0)).2).2 = genBase cfg d0 i0 (k + 1) := by
      rw [hpc]
      show ((List.range k).foldl (colStep cfg) (d0, i0)).2 + _ = _
      rw [hcolk, ihidx, genBase_succ]
      rfl
    have hpclen : (processColumn cfg.gen cfg.height
        (columnOf ((List.range k).foldl (colStep cfg) (d0, i0)).1 k)
        ((List.range k).foldl (colStep cfg) (d0, i0)).2).1.length = d0.length := by
      rw [hpcfst]
      simp only [List.length_append, genDesc, List.length_map, List.length_range]
      have h2 : (columnOf d0 k).length = cfg.height := by
        rw [length_columnOf, hwf.1]
      have h3 := survivors_length_le (columnOf d0 k)
      simp only [missingIn]
      rw [hwf.1]
      omega
    rw [hstep]
    show (setColumn k _ _).length = _ ∧ _
    refine ⟨?_, ?_, ?_, ?_, ?_⟩
    · rw [length_setColumn, ihlen]
    · exact rowLens_setColumn k cfg.width _ _ ihrow
    · intro c hc
      show columnOf (setColumn k _ _) c = _
      rw [columnOf_setColumn_ne k c (by omega), ihkeep c (by omega)]
    · intro c hc
      by_cases hck : c = k
      · subst hck
        show columnOf (setColumn c _ _) c = _
        rw [columnOf_setColumn_self c _ _
          (fun rowL hr => by rw [ihrow rowL hr]; omega)
          (by rw [hpclen, ihlen]), hpcfst]
      · show columnOf (setColumn k _ _) c = _
        rw [columnOf_setColumn_ne k c hck, ihdone c (by omega)]
    · exact hpcsnd

theorem mem_genDesc_isSome (g : Nat → T) (i k : Nat) (x : Option T)
    (h : x ∈ genDesc g i k) : x.isSome = true := by
  simp only [genDesc, List.mem_map] at h
  obtain ⟨j, _, hj⟩ := h
  rw [← hj]
  rfl

theorem mem_survivors_isSome (col : List (Option T)) (x : Option T)
    (h : x ∈ survivors col) : x.isSome = true :=
  (List.mem_filter.mp h).2

/-- Claim C8: gravity refill processes each column independently; in the
refilled grid every column consists of the column's surviving pieces settled
at the bottom in their original relative order, below nothing but freshly
generated pieces (one generator call per formerly empty cell, issued bottom
up, column by column), so every cell of the refilled grid is non-empty; the
generator counter advances by exactly the total number of empty cells. -/
theorem c8_gravity_refill (cfg : Cfg T) (s : BState T) (hwf : WF cfg s.data) :
    (∀ c, c < cfg.width →
      columnOf (gravity cfg s).data c =
        genDesc cfg.gen (genBase cfg s.data s.genIdx c) (missingIn cfg s.data c) ++
          survivors (columnOf s.data c) ∧
      ∀ x ∈ columnOf (gravity cfg s).data c, x.isSome = true) ∧
    (gravity cfg s).genIdx = genBase cfg s.data s.genIdx cfg.width := by
  obtain ⟨hlen, hrow, hkeep, hdone, hidx⟩ :=
    refillCols_spec cfg s.data s.genIdx hwf cfg.width (Nat.le_refl _)
  have hdata : (gravity cfg s).data =
      ((List.range cfg.width).foldl (colStep cfg) (s.data, s.genIdx)).1 := rfl
  have hgen : (gravity cfg s).genIdx =
      ((List.range cfg.width).foldl (colStep cfg) (s.data, s.genIdx)).2 := rfl
  refine ⟨fun c hc => ?_, by rw [hgen, hidx]⟩
  have hchar := hdone c hc
  rw [hdata, hchar]
  refine ⟨rfl, fun x hx => ?_⟩
  rcases List.mem_append.mp hx with hx | hx
  · exact mem_genDesc_isSome _ _ _ x hx
  · exact mem_survivors_isSome _ x hx

/-- Witness for C8 on a concrete one-column board with a gap above and below
the surviving piece. -/
theorem c8_gravity_refill_witness :
    (columnOf (gravity cfg8 s8).data 0 =
      genDesc cfg8.gen (genBase cfg8 s8.data s8.genIdx 0) (missingIn cfg8 s8.data 0) ++
        survivors (columnOf s8.data 0) ∧
      ∀ x ∈ columnOf (gravity cfg8 s8).data 0, x.isSome = true) ∧
    (gravity cfg8 s8).genIdx = genBase cfg8 s8.data s8.genIdx cfg8.width :=
  ⟨(c8_gravity_refill cfg8 s8 (by refine ⟨?_, ?_⟩ <;> decide)).1 0 (by decide),
   (c8_gravity_refill cfg8 s8 (by refine ⟨?_, ?_⟩ <;> decide)).2⟩

end Match3
